import Mathlib

/-!
Verification development for the I/O handler layer of the yt toolkit
(file yt/utilities/io_handler.py).  The Python code is shallowly embedded:
dictionaries become association lists, numpy arrays become lists of exact
rationals together with an explicit shape, exceptions become `Except Unit`,
and the format-specific extension points (io_iter, _read_particle_coords,
_read_particle_data_file, _read_data) become function parameters, matching
their role as mandatory collaborator contracts.
-/

namespace YtIo

/-- First-match association-list lookup; the model of a Python dict read
(dict keys are unique, so first match is the unique match). -/
def alookup {α β : Type} [DecidableEq α] : List (α × β) → α → Option β
  | [], _ => none
  | (k, v) :: rest, a => if a = k then some v else alookup rest a

/-- Python dict assignment `d[k] = v`: overwrite in place when the key is
present (keeping its position), otherwise append the new binding at the
end (Python dicts preserve insertion order). -/
def aset {α β : Type} [DecidableEq α] : List (α × β) → α → β → List (α × β)
  | [], a, b => [(a, b)]
  | (k, v) :: rest, a, b => if a = k then (k, b) :: rest else (k, v) :: aset rest a b

/-- `defaultdict(list)`: `d[k].append(v)`. -/
def appendAt {α β : Type} [DecidableEq α] (m : List (α × List β)) (k : α) (v : β) :
    List (α × List β) :=
  aset m k ((alookup m k).getD [] ++ [v])

instance {ε α : Type} [DecidableEq ε] [DecidableEq α] : DecidableEq (Except ε α) := fun a b =>
  match a, b with
  | Except.ok x, Except.ok y =>
    if h : x = y then isTrue (by rw [h]) else isFalse (fun hc => h (by injection hc))
  | Except.ok _, Except.error _ => isFalse (fun hc => Except.noConfusion hc)
  | Except.error _, Except.ok _ => isFalse (fun hc => Except.noConfusion hc)
  | Except.error e, Except.error f =>
    if h : e = f then isTrue (by rw [h]) else isFalse (fun hc => h (by injection hc))

/-! ## Grids and the manual queue (`BaseIOHandler.push` / `peek`) -/

/-- A grid object: stable `id`, `_id_offset`, and the dataset's
`backup_filename` (reached in the source as `grid.ds.backup_filename`). -/
structure Grid where
  id : Int
  id_offset : Int
  backup_filename : String
deriving DecidableEq

/-- A key of the Python dict `self.queue`.  The source indexes this dict
both with the grid object itself (`self.queue[grid]` in `push`) and with
the integer `grid.id` (`self.queue[grid.id]` in `peek` and in `push`'s
duplicate check).  A grid object and an int are never equal as dict keys,
so the two key spaces are disjoint. -/
inductive QKey where
  | obj : Grid → QKey
  | gid : Int → QKey
deriving DecidableEq

/-- `self.queue`: a `defaultdict(dict)` from keys to per-field stores. -/
abbrev Queue := List (QKey × List (String × List Rat))

/-- `peek(grid, field) = self.queue[grid.id].get(field, None)`.
Indexing the defaultdict inserts an empty per-key dict when the key is
absent, so the (possibly extended) queue is returned as well. -/
def peek (q : Queue) (grid : Grid) (field : String) : Option (List Rat) × Queue :=
  match alookup q (QKey.gid grid.id) with
  | some d => (alookup d field, q)
  | none => (none, q ++ [(QKey.gid grid.id, [])])

/-- `push(grid, field, data)`: raises ValueError when
`grid.id in self.queue and field in self.queue[grid.id]`, and otherwise
stores via `self.queue[grid][field] = data` — note the store key is the
grid object while the guard key is the grid id, exactly as in the source. -/
def push (q : Queue) (grid : Grid) (field : String) (data : List Rat) :
    Except Unit Queue :=
  if (match alookup q (QKey.gid grid.id) with
      | some d => (alookup d field).isSome
      | none => false) then
    Except.error ()
  else
    Except.ok (aset q (QKey.obj grid)
      (aset ((alookup q (QKey.obj grid)).getD []) field data))

/-! ## Backup overlay (`_field_in_backup` / `_read_data_set`) -/

/-- One grid group of the archive: named datasets, one per field. -/
abbrev GridGroup := List (String × List Rat)

/-- A backup archive file: the fixed top-level group named data, holding
one group per grid. -/
structure Archive where
  data : List (String × GridGroup)
deriving DecidableEq

/-- The file system as seen through `os.path.exists` and `h5py.File`:
the archives that exist, by file name. -/
abbrev FileSystem := List (String × Archive)

/-- Left-pad a decimal string with zeros to width `w`. -/
def padZeros (w : Nat) (s : String) : String :=
  String.mk (List.replicate (w - s.length) '0') ++ s

/-- Python `"%010i" % n`: zero-padded to total width 10, sign included. -/
def fmt010 (n : Int) : String :=
  if n < 0 then "-" ++ padZeros 9 (toString n.natAbs) else padZeros 10 (toString n.natAbs)

/-- The archive group name `"grid_%010i" % (grid.id - grid._id_offset)`. -/
def gridGroupName (grid : Grid) : String :=
  "grid_" ++ fmt010 (grid.id - grid.id_offset)

/-- `_field_in_backup(grid, backup_file, field_name)`.  When the file
exists, the source indexes `fhandle["data"]["grid_%010i" % ...]` without
a membership check, so a missing grid group raises KeyError (modelled as
`Except.error ()`). -/
def field_in_backup (fs : FileSystem) (grid : Grid) (backup_file : String)
    (field_name : String) : Except Unit Bool :=
  match alookup fs backup_file with
  | none => Except.ok false
  | some ar =>
    match alookup ar.data (gridGroupName grid) with
    | none => Except.error ()
    | some gg => Except.ok (alookup gg field_name).isSome

/-- `_read_data_set(grid, field)`: the frontend primitive `_read_data` is
a mandatory extension point, passed here as `read_data`. -/
def read_data_set (fs : FileSystem) (read_data : Grid → String → List Rat)
    (grid : Grid) (field : String) : Except Unit (List Rat) :=
  if (alookup fs grid.backup_filename).isNone then
    Except.ok (read_data grid field)
  else
    match field_in_backup fs grid grid.backup_filename field with
    | Except.error e => Except.error e
    | Except.ok true =>
      match alookup fs grid.backup_filename with
      | none => Except.error ()
      | some ar =>
        match alookup ar.data (gridGroupName grid) with
        | none => Except.error ()
        | some gg =>
          match alookup gg field with
          | none => Except.error ()
          | some d => Except.ok d
    | Except.ok false => Except.ok (read_data grid field)

/-- Modelled from the spec, amended: single-object read with overlay.
Primary value when the archive file is absent; the overlay value when the
archive, the grid's group and the field are all present; primary value
when the group is present but the field absent; failure (KeyError) when
the archive exists but the grid's group is absent. -/
def read_data_set_amended (fs : FileSystem) (read_data : Grid → String → List Rat)
    (grid : Grid) (field : String) : Except Unit (List Rat) :=
  match alookup fs grid.backup_filename with
  | none => Except.ok (read_data grid field)
  | some ar =>
    match alookup ar.data (gridGroupName grid) with
    | none => Except.error ()
    | some gg =>
      match alookup gg field with
      | some d => Except.ok d
      | none => Except.ok (read_data grid field)

/-! ## The extracted handler (`IOHandlerExtracted`) -/

/-- `grid.base_grid`: per-field stored values and conversion factors. -/
structure BaseGrid where
  vals : String → List Rat
  convert : String → Rat

/-- A grid of an extracted dataset, carrying its base grid. -/
structure ExtGrid where
  grid : Grid
  base_grid : BaseGrid

inductive HandlerId where
  | extracted : HandlerId
deriving DecidableEq

/-- `io_registry` after this module loads: `__init_subclass__` registers a
class iff it actually sets `_dataset_type` (the bare annotations on
`BaseIOHandler` and `BaseParticleIOHandler` do not), so the single entry
is the extracted handler. -/
def io_registry : List (String × HandlerId) := [("extracted", HandlerId.extracted)]

/-- `IOHandlerExtracted._read_data_set`:
`grid.base_grid[field] / grid.base_grid.convert(field)` — the override
never touches the backup archive or the frontend primitive. -/
def extracted_read_data_set (grid : ExtGrid) (field : String) : List Rat :=
  (grid.base_grid.vals field).map (fun v => v / grid.base_grid.convert field)

/-! ## Fluid selection (`_read_fluid_selection`) -/

/-- A logical field identifier: the (type, name) pair. -/
abbrev FieldKey := String × String

/-- A numpy array: its shape and (flattened) contents, with exact
rationals in place of float64 values. -/
structure NDarray where
  shape : List Nat
  data : List Rat
deriving DecidableEq

/-- `arr.size`: total number of elements. -/
def NDarray.size (a : NDarray) : Nat := a.shape.foldl (fun x y => x * y) 1

/-- `arr.copy()`: an independent copy (identical value). -/
def NDarray.copy (a : NDarray) : NDarray := a

/-- The per-field metadata consulted: `self.ds.field_info[field].nodal_flag`. -/
structure FieldInfo where
  nodal_flag : List Bool

/-- The selector capabilities used by the handler: the GridSelector
instance test, the `is_all_data` attribute (`getattr` default False), and
`count_points(x, y, z, hsml)`. -/
structure Selector where
  isGridSelector : Bool
  is_all_data : Bool
  count_points : List Rat → List Rat → List Rat → Rat → Nat

/-- A selection-scoped object as used by the fluid loop.
`obj.select(selector, source, dest, offset)` mask-compacts `source` into
`dest` in place starting at `offset` and returns the count written;
writing in place cannot change the destination's shape, so the model
returns the count together with the new contents of `dest`. -/
structure FluidObj where
  select : Selector → NDarray → NDarray → Nat → Nat × List Rat

/-- `np.any(finfo.nodal_flag)`. -/
def nodalOf (field_info : FieldKey → FieldInfo) (f : FieldKey) : Bool :=
  (field_info f).nodal_flag.contains true

/-- `2 ** sum(nodal_flag)` (a Python bool sums as 0/1). -/
def numNodes (field_info : FieldKey → FieldInfo) (f : FieldKey) : Nat :=
  2 ^ ((field_info f).nodal_flag.count true)

/-- The array allocated for a field: `np.empty((size, num_nodes))` when
nodal, `np.empty(size)` otherwise.  `np.empty` contents are arbitrary and
never read before being overwritten; the model fills with zeros. -/
def fluidAllocArr (field_info : FieldKey → FieldInfo) (size : Nat) (f : FieldKey) : NDarray :=
  if nodalOf field_info f then
    { shape := [size, numNodes field_info f],
      data := List.replicate (size * numNodes field_info f) 0 }
  else
    { shape := [size], data := List.replicate size 0 }

abbrev FluidRv := List (FieldKey × NDarray)

abbrev IndMap := List (FieldKey × Nat)

/-- One iteration of the `for field, obj, data in self.io_iter(...)` loop.
A `None` buffer is skipped.  Otherwise, under a GridSelector with a
non-nodal field: `ind[field] += data.size; rv[field] = data.copy()`
(the dict lookup `ind[field]` raises KeyError for an unknown field).
Else: `ind[field] += obj.select(selector, data, rv[field], ind[field])`. -/
def fluidStep (selector : Selector) (nodal_fields : List FieldKey)
    (st : FluidRv × IndMap) (t : FieldKey × FluidObj × Option NDarray) :
    Except Unit (FluidRv × IndMap) :=
  match t.2.2 with
  | none => Except.ok st
  | some data =>
    if selector.isGridSelector = true ∧ t.1 ∉ nodal_fields then
      match alookup st.2 t.1 with
      | none => Except.error ()
      | some i => Except.ok (aset st.1 t.1 data.copy, aset st.2 t.1 (i + data.size))
    else
      match alookup st.2 t.1, alookup st.1 t.1 with
      | some i, some r =>
        Except.ok
          (aset st.1 t.1 { shape := r.shape, data := (t.2.1.select selector data r i).2 },
           aset st.2 t.1 (i + (t.2.1.select selector data r i).1))
      | _, _ => Except.error ()

/-- `_read_fluid_selection(chunks, selector, fields, size)` together with
its final per-field write indices.  The mandatory extension point
`io_iter(chunks, fields)` is passed as the already-produced stream
`io_data` of (field, obj, buffer) triples. -/
def read_fluid_selection_full (field_info : FieldKey → FieldInfo) (selector : Selector)
    (io_data : List (FieldKey × FluidObj × Option NDarray))
    (fields : List FieldKey) (size : Nat) : Except Unit (FluidRv × IndMap) :=
  let nodal_fields := fields.filter (fun f => nodalOf field_info f)
  let rv0 : FluidRv := fields.foldl (fun rv f => aset rv f (fluidAllocArr field_info size f)) []
  let ind0 : IndMap := fields.foldl (fun m f => aset m f 0) []
  io_data.foldlM (fluidStep selector nodal_fields) (rv0, ind0)

/-- The dictionary returned by `_read_fluid_selection`. -/
def read_fluid_selection (field_info : FieldKey → FieldInfo) (selector : Selector)
    (io_data : List (FieldKey × FluidObj × Option NDarray))
    (fields : List FieldKey) (size : Nat) : Except Unit FluidRv :=
  Except.map Prod.fst (read_fluid_selection_full field_info selector io_data fields size)

/-- The last non-None buffer streamed for a field (what the GridSelector
fast path leaves in `rv[field]`). -/
def lastBufferFor (f : FieldKey) :
    List (FieldKey × FluidObj × Option NDarray) → Option NDarray
  | [] => none
  | t :: rest =>
    match lastBufferFor f rest with
    | some d => some d
    | none =>
      match t.2.2 with
      | some d => if t.1 = f then some d else none
      | none => none

/-! ## Data files and their deterministic ordering -/

/-- A physical storage unit: file name, start offset, and the precomputed
per-particle-type totals. -/
structure DataFile where
  filename : String
  start : Nat
  total_particles : List (String × Nat)
deriving DecidableEq

/-- A selection-scoped object of a particle chunk. -/
structure PObj where
  data_files : List DataFile
deriving DecidableEq

/-- A chunk: a grouping of selection-scoped objects. -/
structure Chunk where
  objs : List PObj
deriving DecidableEq

/-- The sort key order `(filename, start)` used by `sorted(...)`. -/
def dfLe (a b : DataFile) : Prop :=
  a.filename < b.filename ∨ (a.filename = b.filename ∧ a.start ≤ b.start)

instance : DecidableRel dfLe := fun a b =>
  decidable_of_iff
    (a.filename.data < b.filename.data ∨ (a.filename = b.filename ∧ a.start ≤ b.start))
    (by
      unfold dfLe
      constructor
      · rintro (h | h)
        · exact Or.inl (String.lt_iff_toList_lt.mpr h)
        · exact Or.inr h
      · rintro (h | h)
        · exact Or.inl (String.lt_iff_toList_lt.mp h)
        · exact Or.inr h)

instance : IsTotal DataFile dfLe := by
  constructor
  intro a b
  rcases lt_trichotomy a.filename b.filename with h | h | h
  · exact Or.inl (Or.inl h)
  · rcases Nat.le_total a.start b.start with hs | hs
    · exact Or.inl (Or.inr ⟨h, hs⟩)
    · exact Or.inr (Or.inr ⟨h.symm, hs⟩)
  · exact Or.inr (Or.inl h)

instance : IsTrans DataFile dfLe := by
  constructor
  intro a b c hab hbc
  rcases hab with h1 | ⟨he1, hs1⟩ <;> rcases hbc with h2 | ⟨he2, hs2⟩
  · exact Or.inl (lt_trans h1 h2)
  · exact Or.inl (he2 ▸ h1)
  · exact Or.inl (he1 ▸ h2)
  · exact Or.inr ⟨he1.trans he2, le_trans hs1 hs2⟩

/-- The set of data files reachable from the chunks
(`for chunk: for obj: data_files.update(obj.data_files)`), with
duplicates removed keeping first occurrences. -/
def collectDataFiles (chunks : List Chunk) : List DataFile :=
  ((chunks.flatMap Chunk.objs).flatMap PObj.data_files).eraseDups

/-- `BaseParticleIOHandler._sorted_chunk_iterator`:
`sorted(data_files, key=lambda x: (x.filename, x.start))`. -/
def sorted_chunk_iterator (chunks : List Chunk) : List DataFile :=
  List.insertionSort dfLe (collectDataFiles chunks)

/-- The data-file visit order of `_read_particle_fields` (lines 301-305),
textually the same set-then-sort construction. -/
def read_particle_files_order (chunks : List Chunk) : List DataFile :=
  List.insertionSort dfLe (collectDataFiles chunks)

/-! ## Particle counting (`_count_selected_particles` and overrides) -/

/-- Per-type selected-particle counts: a `defaultdict(lambda: 0)`. -/
abbrev PSize := String → Nat

/-- `ptf`: particle type to the list of on-disk field names to read. -/
abbrev Ptf := List (String × List String)

/-- Pointwise update of a `defaultdict(lambda: 0)`. -/
def updFn (ps : PSize) (k : String) (v : Nat) : PSize :=
  fun x => if x = k then v else ps x

/-- The stream yielded by the extension point
`_read_particle_coords(chunks, ptf)`: (ptype, (x, y, z), hsml) tuples. -/
abbrev CoordStream := List (String × (List Rat × List Rat × List Rat) × Rat)

/-- `_count_selected_particles`:
`psize[ptype] += selector.count_points(x, y, z, hsml)` per yielded tuple. -/
def count_selected_particles (psize : PSize) (coords : CoordStream)
    (selector : Selector) : PSize :=
  coords.foldl
    (fun ps e => updFn ps e.1 (ps e.1 + selector.count_points e.2.1.1 e.2.1.2.1 e.2.1.2.2 e.2.2))
    psize

/-- `BaseIOHandler._count_particles_chunks`: always counts manually.  The
extension point `_read_particle_coords` is passed as `coordsOf`. -/
def count_particles_chunks (coordsOf : List Chunk → Ptf → CoordStream)
    (psize : PSize) (chunks : List Chunk) (ptf : Ptf) (selector : Selector) : PSize :=
  count_selected_particles psize (coordsOf chunks ptf) selector

/-- `BaseParticleIOHandler._count_particles_chunks`: when the selector
reports `is_all_data`, sum each sorted data file's precomputed
`total_particles[ptype]` over the ptf keys (a missing per-type total,
which would raise KeyError, is modelled as 0 — the DataFile contract
provides a total for every particle type); otherwise fall back to
`_count_selected_particles`. -/
def count_particles_chunks_p (coordsOf : List Chunk → Ptf → CoordStream)
    (psize : PSize) (chunks : List Chunk) (ptf : Ptf) (selector : Selector) : PSize :=
  if selector.is_all_data then
    (sorted_chunk_iterator chunks).foldl
      (fun ps df =>
        ptf.foldl
          (fun ps2 kv => updFn ps2 kv.1 (ps2 kv.1 + (alookup df.total_particles kv.1).getD 0))
          ps)
      psize
  else
    count_selected_particles psize (coordsOf chunks ptf) selector

/-! ## Particle selection (`_read_particle_selection`) -/

/-- A particle field value array: the shape of one particle's entry
(`[]` scalar, `[w]` vector, declared dims otherwise) and the list of
per-particle rows, each row flattened. -/
structure PArr where
  rowShape : List Nat
  rows : List (List Rat)
deriving DecidableEq

/-- `np.empty(shape)` for a particle output array: `n` rows of arbitrary
(here zero) contents, never read before being overwritten or trimmed. -/
def pempty (n : Nat) (rshape : List Nat) : PArr :=
  { rowShape := rshape,
    rows := List.replicate n (List.replicate (rshape.foldl (fun a b => a * b) 1) 0) }

/-- `dest[i : i + vals.shape[0], ...] = vals`: numpy raises (broadcast
mismatch) when the clamped slice is shorter than `vals` or the trailing
dimensions differ; the model requires the exact fit the pipeline relies
on and errors otherwise. -/
def sliceAssign (a : PArr) (i : Nat) (vals : PArr) : Except Unit PArr :=
  if vals.rowShape = a.rowShape ∧ i + vals.rows.length ≤ a.rows.length then
    Except.ok
      { rowShape := a.rowShape,
        rows := a.rows.take i ++ vals.rows ++ a.rows.drop (i + vals.rows.length) }
  else Except.error ()

/-- `ds.particle_unions`: union name to its concrete particle types. -/
abbrev Unions := List (String × List String)

/-- `field_maps`: concrete on-disk field to the logical fields it fills. -/
abbrev FMaps := List (FieldKey × List FieldKey)

/-- The return dictionary of the particle pipeline. -/
abbrev PRv := List (FieldKey × PArr)

/-- The `ptf` built by the union-resolution loop (lines 246-256):
for a union type every member type gets the field name appended, a plain
type gets it directly. -/
def buildPtf (unions : Unions) (fields : List FieldKey) : Ptf :=
  fields.foldl
    (fun ptf field =>
      match alookup unions field.1 with
      | some pts => pts.foldl (fun p pt => appendAt p pt field.2) ptf
      | none => appendAt ptf field.1 field.2)
    []

/-- The `field_maps` built by the same loop: `(pt, fname) -> fields` for
union members, identity for plain fields. -/
def buildFieldMaps (unions : Unions) (fields : List FieldKey) : FMaps :=
  fields.foldl
    (fun fm field =>
      match alookup unions field.1 with
      | some pts => pts.foldl (fun m pt => appendAt m (pt, field.2) field) fm
      | none => appendAt fm field field)
    []

/-- `fsize`: first zeroed per field, then accumulated from `psize` over
the union members (or the field's own type), lines 248 and 263-268. -/
def buildFsize (unions : Unions) (psize : PSize) (fields : List FieldKey) :
    List (FieldKey × Nat) :=
  let f0 := fields.foldl (fun fs field => aset fs field 0) []
  fields.foldl
    (fun fs field =>
      match alookup unions field.1 with
      | some pts =>
        pts.foldl (fun fs2 pt => aset fs2 field ((alookup fs2 field).getD 0 + psize pt)) fs
      | none => aset fs field ((alookup fs field).getD 0 + psize field.1))
    f0

/-- The row shape resolved for a field (lines 270-281): `(n, vsize)` for
a declared vector field, `(n, *extra)` for a declared array field, `(n,)`
otherwise. -/
def allocRowShape (vector_fields : List (String × Nat))
    (array_fields : List (String × List Nat)) (f : FieldKey) : List Nat :=
  match alookup vector_fields f.2 with
  | some v => [v]
  | none =>
    match alookup array_fields f.2 with
    | some extra => extra
    | none => []

/-- One fill of one logical field from one yielded block (lines 288-292):
`my_ind = ind[field_f]; rv[field_f][my_ind : my_ind + vals.shape[0], ...]
= vals; ind[field_f] += vals.shape[0]`.  Dict lookups on absent keys
raise KeyError. -/
def fillOne (vals : PArr) (st2 : PRv × IndMap) (field_f : FieldKey) :
    Except Unit (PRv × IndMap) :=
  match alookup st2.2 field_f, alookup st2.1 field_f with
  | some my_ind, some arr =>
    match sliceAssign arr my_ind vals with
    | Except.ok arr2 =>
      Except.ok (aset st2.1 field_f arr2, aset st2.2 field_f (my_ind + vals.rows.length))
    | Except.error e => Except.error e
  | _, _ => Except.error ()

/-- The body run for one yielded `(field_r, vals)` (lines 285-292):
fill every logical field mapped to the concrete field. -/
def fillTargets (fm : FMaps) (st : PRv × IndMap) (b : FieldKey × PArr) :
    Except Unit (PRv × IndMap) :=
  ((alookup fm b.1).getD []).foldlM (fillOne b.2) st

/-- The whole read-and-fan-out loop over the yielded stream. -/
def fillLoop (fm : FMaps) (stream : List (FieldKey × PArr)) (st : PRv × IndMap) :
    Except Unit (PRv × IndMap) :=
  stream.foldlM (fun st2 b => fillTargets fm st2 b) st

/-- The trim loop (lines 295-296): `rv[f] = rv[f][: ind[f]]` for every
field of `ind` (every `ind` key is an `rv` key, so the skip branch for a
missing key is unreachable). -/
def trimAll (ind : IndMap) (rv : PRv) : PRv :=
  ind.foldl
    (fun rv2 kv =>
      match alookup rv2 kv.1 with
      | some a => aset rv2 kv.1 { rowShape := a.rowShape, rows := a.rows.take kv.2 }
      | none => rv2)
    rv

/-- The stream of `(concrete_field, values)` pairs produced by
`_read_particle_fields(chunks, ptf, selector)`: visit the data files in
sorted order and yield each file's dict items.  The extension point
`_read_particle_data_file` is passed as `readPDF`. -/
def read_particle_fields_stream
    (readPDF : DataFile → Ptf → Selector → List (FieldKey × PArr))
    (ptf : Ptf) (selector : Selector) (chunks : List Chunk) :
    List (FieldKey × PArr) :=
  (read_particle_files_order chunks).flatMap (fun df => readPDF df ptf selector)

/-- The `psize` defaultdict after the counting phase (line 260), starting
from all-zero counts. -/
def psizeOf (unions : Unions) (countFn : PSize → List Chunk → Ptf → Selector → PSize)
    (chunks : List Chunk) (selector : Selector) (fields : List FieldKey) : PSize :=
  countFn (fun _ => 0) chunks (buildPtf unions fields) selector

/-- The `fsize` dict after the allocation-size loop. -/
def fsizeOf (unions : Unions) (countFn : PSize → List Chunk → Ptf → Selector → PSize)
    (chunks : List Chunk) (selector : Selector) (fields : List FieldKey) :
    List (FieldKey × Nat) :=
  buildFsize unions (psizeOf unions countFn chunks selector fields) fields

/-- The freshly allocated `rv` dict (lines 270-283): one `np.empty` array
per requested field, sized by `fsize` and shaped by the field kind. -/
def initRv (unions : Unions)
    (vector_fields : List (String × Nat)) (array_fields : List (String × List Nat))
    (countFn : PSize → List Chunk → Ptf → Selector → PSize)
    (chunks : List Chunk) (selector : Selector) (fields : List FieldKey) : PRv :=
  fields.foldl
    (fun rv f =>
      aset rv f
        (pempty ((alookup (fsizeOf unions countFn chunks selector fields) f).getD 0)
          (allocRowShape vector_fields array_fields f)))
    []

/-- The initial per-field write indices (line 283). -/
def initInd (fields : List FieldKey) : IndMap :=
  fields.foldl (fun m f => aset m f 0) []

/-- `_read_particle_selection(chunks, selector, fields)`.  The counting
phase `self._count_particles_chunks` dispatches dynamically (base or
particle subclass), so it is passed as `countFn`; the per-file read
primitive is passed as `readPDF`.  The source's local bindings ptf, psize,
fsize, rv, ind are the named definitions above; an exception escaping the
fill loop propagates (`Except.map` keeps errors). -/
def read_particle_selection (unions : Unions)
    (vector_fields : List (String × Nat)) (array_fields : List (String × List Nat))
    (countFn : PSize → List Chunk → Ptf → Selector → PSize)
    (readPDF : DataFile → Ptf → Selector → List (FieldKey × PArr))
    (chunks : List Chunk) (selector : Selector) (fields : List FieldKey) :
    Except Unit PRv :=
  Except.map (fun st : PRv × IndMap => trimAll st.2 st.1)
    (fillLoop (buildFieldMaps unions fields)
      (read_particle_fields_stream readPDF (buildPtf unions fields) selector chunks)
      (initRv unions vector_fields array_fields countFn chunks selector fields,
       initInd fields))

/-- The rows a given logical field receives from a stream: the blocks
whose concrete field maps to it, in stream order. -/
def contribRows (fm : FMaps) (f : FieldKey) (stream : List (FieldKey × PArr)) :
    List (List Rat) :=
  stream.flatMap (fun b => if f ∈ (alookup fm b.1).getD [] then b.2.rows else [])

/-- As `contribRows`, but counting a block once per occurrence of the
field among its targets (the general behaviour of the fill loop). -/
def contribRowsC (fm : FMaps) (f : FieldKey) (stream : List (FieldKey × PArr)) :
    List (List Rat) :=
  stream.flatMap
    (fun b => (List.replicate (((alookup fm b.1).getD []).count f) b.2.rows).flatten)

/-! ## Concrete instances used in counterexamples and witnesses -/

/-- A sample grid. -/
def g0 : Grid := { id := 0, id_offset := 0, backup_filename := "backup.h5" }

/-- An archive holding a group for grid 7 only. -/
def arC7 : Archive := { data := [("grid_0000000007", [("X", [3])])] }

/-- A file system on which `arC7` exists as `bk.h5`. -/
def fsC7 : FileSystem := [("bk.h5", arC7)]

/-- A grid whose id (1) has no group in `arC7`. -/
def gC7 : Grid := { id := 1, id_offset := 0, backup_filename := "bk.h5" }

/-- A frontend primitive returning `[5]` for every read. -/
def rdC7 : Grid → String → List Rat := fun _ _ => [5]

/-- An archive overriding field X of grid 2 with `[7]`. -/
def arC10 : Archive := { data := [("grid_0000000002", [("X", [7])])] }

/-- A file system on which `arC10` exists as `bk2.h5`. -/
def fsC10 : FileSystem := [("bk2.h5", arC10)]

/-- A frontend primitive returning `[9]` for every read. -/
def rdC10 : Grid → String → List Rat := fun _ _ => [9]

/-- An extracted-dataset grid over grid 2, with base values `[8]` and
conversion factor 2 for every field. -/
def egC10 : ExtGrid :=
  { grid := { id := 2, id_offset := 0, backup_filename := "bk2.h5" },
    base_grid := { vals := fun _ => [8], convert := fun _ => 2 } }

/-- Field metadata defining every field as non-nodal. -/
def fiC3 : FieldKey → FieldInfo := fun _ => { nodal_flag := [false, false, false] }

/-- A GridSelector. -/
def selGridC3 : Selector :=
  { isGridSelector := true, is_all_data := true, count_points := fun _ _ _ _ => 0 }

/-- A non-grid selector. -/
def selC3w : Selector :=
  { isGridSelector := false, is_all_data := false, count_points := fun _ _ _ _ => 0 }

/-- An object whose select writes nothing and reports everything read. -/
def objC3 : FluidObj := { select := fun _ d r _ => (d.data.length, r.data) }

/-- A 7-element raw buffer. -/
def bufC3 : NDarray := { shape := [7], data := List.replicate 7 1 }

/-- A fluid field request for one field. -/
def fieldsC3 : List FieldKey := [("gas", "d")]

/-- An io_iter stream yielding one 7-element buffer for the one field. -/
def ioC3 : List (FieldKey × FluidObj × Option NDarray) := [(("gas", "d"), objC3, some bufC3)]

/-- A data file named f1 with per-type totals. -/
def dfW1 : DataFile := { filename := "f1", start := 0, total_particles := [("a", 3), ("b", 1)] }

/-- A data file named f2 with per-type totals. -/
def dfW2 : DataFile := { filename := "f2", start := 0, total_particles := [("a", 4), ("b", 1)] }

/-- One chunk presenting the two data files out of sorted order. -/
def chunksW : List Chunk := [{ objs := [{ data_files := [dfW2, dfW1] }] }]

/-- A selector that reports selecting all data. -/
def selW : Selector :=
  { isGridSelector := false, is_all_data := true, count_points := fun _ _ _ _ => 0 }

/-- A particle-type union all = \x7ba, b\x7d. -/
def unionsW : Unions := [("all", ["a", "b"])]

/-- One requested logical field on the union type. -/
def fieldsW : List FieldKey := [("all", "m")]

/-- A counting phase reporting one particle for each of types a and b. -/
def countFnW : PSize → List Chunk → Ptf → Selector → PSize :=
  fun ps _ _ _ => fun pt => if pt = "a" then 1 else if pt = "b" then 1 else ps pt

/-- A per-file read primitive: file f1 yields one a-particle value 10,
file f2 one b-particle value 20. -/
def readPDFW : DataFile → Ptf → Selector → List (FieldKey × PArr) :=
  fun df _ _ =>
    if df.filename = "f1" then [(("a", "m"), { rowShape := [], rows := [[10]] })]
    else [(("b", "m"), { rowShape := [], rows := [[20]] })]

/-- A per-file read primitive yielding nothing (empty selection). -/
def readPDFEmptyW : DataFile → Ptf → Selector → List (FieldKey × PArr) := fun _ _ _ => []

/-- The particle coordinate stream primitive (unused under is_all_data). -/
def coordsOfW : List Chunk → Ptf → CoordStream := fun _ _ => []

/-- A ptf requesting field m of type a. -/
def ptfW : Ptf := [("a", ["m"])]

/-- The expected particle-read result for the witness instance: the union
field filled with the a-contribution from f1 then the b-contribution
from f2, trimmed to length 2. -/
def rvW : PRv := [(("all", "m"), { rowShape := [], rows := [[10], [20]] })]

/-! # Lemmas about the association-list dictionary model -/

theorem alookup_aset_self {α β : Type} [DecidableEq α] (m : List (α × β)) (k : α) (v : β) :
    alookup (aset m k v) k = some v := by
  induction m with
  | nil => simp [aset, alookup]
  | cons p rest ih =>
    obtain ⟨pk, pv⟩ := p
    by_cases h : k = pk
    · simp [aset, h, alookup]
    · simp [aset, h, alookup, ih]

theorem alookup_aset_ne {α β : Type} [DecidableEq α] (m : List (α × β)) (k : α) (v : β)
    (a : α) (h : a ≠ k) : alookup (aset m k v) a = alookup m a := by
  induction m with
  | nil => simp [aset, alookup, h]
  | cons p rest ih =>
    obtain ⟨pk, pv⟩ := p
    by_cases hk : k = pk
    · subst hk
      simp [aset, alookup, h]
    · by_cases ha : a = pk
      · simp [aset, alookup, hk, ha]
      · simp [aset, alookup, hk, ha, ih]

theorem alookup_isSome_iff {α β : Type} [DecidableEq α] (m : List (α × β)) (a : α) :
    (alookup m a).isSome ↔ a ∈ m.map Prod.fst := by
  induction m with
  | nil => simp [alookup]
  | cons p rest ih =>
    obtain ⟨pk, pv⟩ := p
    by_cases h : a = pk
    · simp [alookup, h]
    · simp [alookup, h, ih]

theorem map_fst_aset_mem {α β : Type} [DecidableEq α] (m : List (α × β)) (k : α) (v : β)
    (h : k ∈ m.map Prod.fst) : (aset m k v).map Prod.fst = m.map Prod.fst := by
  induction m with
  | nil => simp at h
  | cons p rest ih =>
    obtain ⟨pk, pv⟩ := p
    by_cases hk : k = pk
    · simp [aset, hk]
    · simp only [List.map_cons, List.mem_cons] at h
      rcases h with h | h
      · exact absurd h hk
      · simp [aset, hk, ih h]

theorem map_fst_aset_not_mem {α β : Type} [DecidableEq α] (m : List (α × β)) (k : α) (v : β)
    (h : k ∉ m.map Prod.fst) : (aset m k v).map Prod.fst = m.map Prod.fst ++ [k] := by
  induction m with
  | nil => simp [aset]
  | cons p rest ih =>
    obtain ⟨pk, pv⟩ := p
    simp only [List.map_cons, List.mem_cons] at h
    push_neg at h
    simp [aset, h.1, ih h.2]

theorem nodup_keys_aset {α β : Type} [DecidableEq α] (m : List (α × β)) (k : α) (v : β)
    (h : (m.map Prod.fst).Nodup) : ((aset m k v).map Prod.fst).Nodup := by
  by_cases hk : k ∈ m.map Prod.fst
  · rw [map_fst_aset_mem m k v hk]
    exact h
  · rw [map_fst_aset_not_mem m k v hk]
    simp [List.nodup_append, h, hk]

theorem alookup_appendAt_self {α β : Type} [DecidableEq α]
    (m : List (α × List β)) (k : α) (v : β) :
    alookup (appendAt m k v) k = some ((alookup m k).getD [] ++ [v]) :=
  alookup_aset_self m k _

theorem alookup_appendAt_ne {α β : Type} [DecidableEq α]
    (m : List (α × List β)) (k : α) (v : β) (a : α) (h : a ≠ k) :
    alookup (appendAt m k v) a = alookup m a :=
  alookup_aset_ne m k _ a h

theorem alookup_foldl_aset_stable {α β : Type} [DecidableEq α]
    (l : List α) (gv : α → β) (m : List (α × β)) (a : α) (w : β)
    (hw : ∀ x ∈ l, x = a → gv x = w)
    (h : alookup m a = some w) :
    alookup (l.foldl (fun m2 x => aset m2 x (gv x)) m) a = some w := by
  induction l generalizing m with
  | nil => exact h
  | cons x rest ih =>
    simp only [List.foldl_cons]
    by_cases hx : a = x
    · have hxv : gv x = w := hw x (List.mem_cons_self x rest) hx.symm
      refine ih _ (fun y hy => hw y (List.mem_cons_of_mem x hy)) ?_
      rw [hx, alookup_aset_self, hxv]
    · refine ih _ (fun y hy => hw y (List.mem_cons_of_mem x hy)) ?_
      rw [alookup_aset_ne _ _ _ _ hx]
      exact h

theorem alookup_foldl_aset {α β : Type} [DecidableEq α]
    (l : List α) (gv : α → β) (m : List (α × β)) (a : α) (ha : a ∈ l) :
    alookup (l.foldl (fun m2 x => aset m2 x (gv x)) m) a = some (gv a) := by
  induction l generalizing m with
  | nil => simp at ha
  | cons x rest ih =>
    simp only [List.foldl_cons]
    by_cases hr : a ∈ rest
    · exact ih _ hr
    · have hx : x = a := by
        rcases List.mem_cons.mp ha with h | h
        · exact h.symm
        · exact absurd h hr
      refine alookup_foldl_aset_stable rest gv _ a (gv a)
        (fun y hy hya => by rw [hya]) ?_
      rw [hx, alookup_aset_self]

theorem map_fst_foldl_aset_congr {α β β' : Type} [DecidableEq α]
    (l : List α) (gv : α → β) (gv' : α → β') (m : List (α × β)) (m' : List (α × β'))
    (h : m.map Prod.fst = m'.map Prod.fst) :
    (l.foldl (fun m2 x => aset m2 x (gv x)) m).map Prod.fst
      = (l.foldl (fun m2 x => aset m2 x (gv' x)) m').map Prod.fst := by
  induction l generalizing m m' with
  | nil => exact h
  | cons x rest ih =>
    simp only [List.foldl_cons]
    refine ih _ _ ?_
    by_cases hx : x ∈ m.map Prod.fst
    · rw [map_fst_aset_mem m x _ hx, map_fst_aset_mem m' x _ (h ▸ hx), h]
    · rw [map_fst_aset_not_mem m x _ hx, map_fst_aset_not_mem m' x _ (h ▸ hx), h]

theorem nodup_keys_foldl_aset {α β : Type} [DecidableEq α]
    (l : List α) (gv : α → β) (m : List (α × β)) (h : (m.map Prod.fst).Nodup) :
    ((l.foldl (fun m2 x => aset m2 x (gv x)) m).map Prod.fst).Nodup := by
  induction l generalizing m with
  | nil => exact h
  | cons x rest ih =>
    simp only [List.foldl_cons]
    exact ih _ (nodup_keys_aset m x _ h)

/-! # C1 and C2: the manual queue -/

/-- C1: the spec says a second `push` for the same (object, field) pair
raises before mutating and leaves the original value peekable.  In the
source the duplicate guard and `peek` read `self.queue[grid.id]` while
`push` stores into `self.queue[grid]`, so the guard never fires: the
second push succeeds, overwrites the stored entry, and the value was
never peekable at all. -/
theorem push_duplicate_unchecked :
    push [] g0 "density" [1] = Except.ok [(QKey.obj g0, [("density", [1])])]
    ∧ push [(QKey.obj g0, [("density", [1])])] g0 "density" [2]
        = Except.ok [(QKey.obj g0, [("density", [2])])]
    ∧ (peek [(QKey.obj g0, [("density", [2])])] g0 "density").1 = none := by
  refine ⟨?_, ?_, ?_⟩ <;> decide

/-- C2: the spec says `peek` returns the most recently pushed value for
the pair, and the absent marker for a never-pushed pair.  The source
stores pushed values under the grid object but peeks under the grid id,
so the pushed value is never returned; the never-pushed case does return
the absent marker. -/
theorem peek_misses_pushed_value :
    (peek [] g0 "x").1 = none
    ∧ push [] g0 "x" [3] = Except.ok [(QKey.obj g0, [("x", [3])])]
    ∧ (peek [(QKey.obj g0, [("x", [3])])] g0 "x").1 = none := by
  refine ⟨?_, ?_, ?_⟩ <;> decide

/-! # C7: the backup overlay -/

theorem read_data_set_cases (fs : FileSystem) (rd : Grid → String → List Rat)
    (grid : Grid) (field : String) :
    read_data_set fs rd grid field = read_data_set_amended fs rd grid field := by
  unfold read_data_set read_data_set_amended field_in_backup
  cases h1 : alookup fs grid.backup_filename with
  | none => simp [h1]
  | some ar =>
    simp only [h1, Option.isNone_some, Bool.false_eq_true, if_false]
    cases h2 : alookup ar.data (gridGroupName grid) with
    | none => simp
    | some gg =>
      cases h3 : alookup gg field with
      | none => simp [h3]
      | some d => simp [h3]

/-- C7: as stated the claim fails — when the archive file exists but holds
no group for the grid, `_field_in_backup` raises KeyError instead of
falling back to the primary read.  Amended: primary when the archive is
absent, overlay value when archive, grid group and field are all present,
primary when the group is present but the field absent, and KeyError when
the archive exists without the grid's group.  `read_data_set_amended`
states exactly that. -/
theorem c7_read_single_overlay_amended (fs : FileSystem) (rd : Grid → String → List Rat)
    (grid : Grid) (field : String) :
    read_data_set fs rd grid field = read_data_set_amended fs rd grid field :=
  read_data_set_cases fs rd grid field

/-- C7 counterexample: archive `bk.h5` exists with a group only for grid
7; reading field X of grid 1 raises (KeyError) although the claim demands
the primary value `[5]`. -/
theorem c7_counterexample :
    read_data_set fsC7 rdC7 gC7 "X" = Except.error ()
    ∧ rdC7 gC7 "X" = [5] := by
  refine ⟨?_, ?_⟩ <;> decide

/-! # C10: the extracted handler -/

theorem read_data_set_overlay_hit (fs : FileSystem) (rd : Grid → String → List Rat)
    (grid : Grid) (field : String) (ar : Archive) (gg : GridGroup) (w : List Rat)
    (h1 : alookup fs grid.backup_filename = some ar)
    (h2 : alookup ar.data (gridGroupName grid) = some gg)
    (h3 : alookup gg field = some w) :
    read_data_set fs rd grid field = Except.ok w := by
  rw [read_data_set_cases]
  unfold read_data_set_amended
  simp [h1, h2, h3]

/-- C10: the handler registered under the tag extracted overrides the
single-object read: it returns the base grid's stored value divided by
the base grid's conversion factor, and never consults the backup overlay
— even when (hypotheses) the overlay defines the very field, in which
case the overridden base-class read would have returned the overlay
value `w`. -/
theorem c10_extracted_override (fs : FileSystem) (rd : Grid → String → List Rat)
    (g : ExtGrid) (field : String) (ar : Archive) (gg : GridGroup) (w : List Rat)
    (h1 : alookup fs g.grid.backup_filename = some ar)
    (h2 : alookup ar.data (gridGroupName g.grid) = some gg)
    (h3 : alookup gg field = some w) :
    alookup io_registry "extracted" = some HandlerId.extracted
    ∧ extracted_read_data_set g field
        = (g.base_grid.vals field).map (fun v => v / g.base_grid.convert field)
    ∧ read_data_set fs rd g.grid field = Except.ok w :=
  ⟨rfl, rfl, read_data_set_overlay_hit fs rd g.grid field ar gg w h1 h2 h3⟩

/-- C10 witness: the override at a concrete overlay that defines field X
of grid 2 as `[7]` while the base grid stores `[8]` with factor 2. -/
theorem c10_extracted_override_witness :
    (alookup fsC10 egC10.grid.backup_filename = some arC10
      ∧ alookup arC10.data (gridGroupName egC10.grid) = some [("X", [7])]
      ∧ alookup [(("X" : String), ([7] : List Rat))] "X" = some [7])
    ∧ (alookup io_registry "extracted" = some HandlerId.extracted
      ∧ extracted_read_data_set egC10 "X"
          = (egC10.base_grid.vals "X").map (fun v => v / egC10.base_grid.convert "X")
      ∧ read_data_set fsC10 rdC10 egC10.grid "X" = Except.ok [7]) :=
  ⟨⟨by decide, by decide, by decide⟩,
   c10_extracted_override fsC10 rdC10 egC10 "X" arC10 [("X", [7])] [7]
     (by decide) (by decide) (by decide)⟩

/-! # C5: deterministic ordering of the particle pipeline -/

/-- C5: the counting phase's `_sorted_chunk_iterator` and the read
phase's `_read_particle_fields` visit data files in the same sorted
(filename, start) order; that order is sorted under `dfLe` and is a
permutation of the collected data files; and the particle pipeline is a
pure function of its inputs, so repeated invocation with identical
chunks, selector and fields yields identical output. -/
theorem c5_deterministic_order (unions : Unions)
    (vector_fields : List (String × Nat)) (array_fields : List (String × List Nat))
    (countFn : PSize → List Chunk → Ptf → Selector → PSize)
    (readPDF : DataFile → Ptf → Selector → List (FieldKey × PArr))
    (chunks : List Chunk) (selector : Selector) (fields : List FieldKey) :
    sorted_chunk_iterator chunks = read_particle_files_order chunks
    ∧ List.Sorted dfLe (read_particle_files_order chunks)
    ∧ (read_particle_files_order chunks).Perm (collectDataFiles chunks)
    ∧ read_particle_selection unions vector_fields array_fields countFn readPDF
        chunks selector fields
      = read_particle_selection unions vector_fields array_fields countFn readPDF
          chunks selector fields :=
  ⟨rfl, List.sorted_insertionSort dfLe _, List.perm_insertionSort dfLe _, rfl⟩

/-! # C9: None buffers are skipped by the fluid loop -/

/-- C9: a streamed triple whose raw buffer is None contributes nothing:
deleting it from the io_iter stream leaves both the output arrays and
the running write indices of the fluid read unchanged. -/
theorem c9_none_buffer_skipped (field_info : FieldKey → FieldInfo) (selector : Selector)
    (io1 io2 : List (FieldKey × FluidObj × Option NDarray))
    (f : FieldKey) (o : FluidObj) (fields : List FieldKey) (size : Nat) :
    read_fluid_selection_full field_info selector (io1 ++ (f, o, none) :: io2) fields size
      = read_fluid_selection_full field_info selector (io1 ++ io2) fields size := by
  unfold read_fluid_selection_full
  simp only [List.foldlM_append, List.foldlM_cons]
  simp only [fluidStep]
  rfl

/-! # C3: output shapes of the fluid read -/

theorem fluid_fold_master (selector : Selector) (nf : List FieldKey)
    (io : List (FieldKey × FluidObj × Option NDarray)) (st : FluidRv × IndMap)
    (f : FieldKey)
    (hkeys : st.1.map Prod.fst = st.2.map Prod.fst)
    (hio : ∀ t ∈ io, t.1 ∈ st.1.map Prod.fst) :
    ∃ rv ind, List.foldlM (fluidStep selector nf) st io = Except.ok (rv, ind)
      ∧ rv.map Prod.fst = st.1.map Prod.fst
      ∧ ind.map Prod.fst = st.2.map Prod.fst
      ∧ ((selector.isGridSelector = true ∧ f ∉ nf) →
          alookup rv f = (match lastBufferFor f io with
            | some d => some d
            | none => alookup st.1 f))
      ∧ ((selector.isGridSelector = false ∨ f ∈ nf) →
          ∀ a0, alookup st.1 f = some a0 →
            ∃ a, alookup rv f = some a ∧ a.shape = a0.shape) := by
  induction io generalizing st with
  | nil =>
    exact ⟨st.1, st.2, rfl, rfl, rfl, fun _ => rfl, fun _ a0 h => ⟨a0, h, rfl⟩⟩
  | cons t rest ih =>
    obtain ⟨tf, tobj, td⟩ := t
    have htf : tf ∈ st.1.map Prod.fst := hio (tf, tobj, td) (List.mem_cons_self _ _)
    cases td with
    | none =>
      obtain ⟨rv, ind, hfold, hk1, hk2, hfastc, hslowc⟩ :=
        ih st hkeys (fun t2 ht2 => hio t2 (List.mem_cons_of_mem _ ht2))
      refine ⟨rv, ind, ?_, hk1, hk2, ?_, hslowc⟩
      · rw [List.foldlM_cons]
        exact hfold
      · intro hcond
        have := hfastc hcond
        cases hr : lastBufferFor f rest with
        | some d2 => simp only [lastBufferFor, hr] at this ⊢; exact this
        | none => simp only [lastBufferFor, hr] at this ⊢; exact this
    | some d =>
      have hind : (alookup st.2 tf).isSome := by
        rw [alookup_isSome_iff, ← hkeys]
        exact htf
      obtain ⟨i, hi⟩ := Option.isSome_iff_exists.mp hind
      by_cases hfast : selector.isGridSelector = true ∧ tf ∉ nf
      · have hstep : fluidStep selector nf st (tf, tobj, some d)
            = Except.ok (aset st.1 tf d.copy, aset st.2 tf (i + d.size)) := by
          simp only [fluidStep]
          rw [if_pos hfast, hi]
        have hkeys1 : (aset st.1 tf d.copy).map Prod.fst = st.1.map Prod.fst :=
          map_fst_aset_mem _ _ _ htf
        have hkeys2 : (aset st.2 tf (i + d.size)).map Prod.fst = st.2.map Prod.fst :=
          map_fst_aset_mem _ _ _ (hkeys ▸ htf)
        obtain ⟨rv, ind, hfold, hk1, hk2, hfastc, hslowc⟩ :=
          ih (aset st.1 tf d.copy, aset st.2 tf (i + d.size))
            (by simpa [hkeys1, hkeys2] using hkeys)
            (fun t2 ht2 => by
              rw [show ((aset st.1 tf d.copy, aset st.2 tf (i + d.size)) :
                  FluidRv × IndMap).1 = aset st.1 tf d.copy from rfl, hkeys1]
              exact hio t2 (List.mem_cons_of_mem _ ht2))
        refine ⟨rv, ind, ?_, by rwa [hkeys1] at hk1, by rwa [hkeys2] at hk2, ?_, ?_⟩
        · rw [List.foldlM_cons, hstep]
          exact hfold
        · intro hcond
          have hc := hfastc hcond
          cases hr : lastBufferFor f rest with
          | some d2 =>
            simp only [lastBufferFor, hr] at hc ⊢
            exact hc
          | none =>
            simp only [lastBufferFor, hr] at hc ⊢
            by_cases htf2 : tf = f
            · subst htf2
              rw [if_pos rfl]
              rw [show alookup (aset st.1 tf d.copy) tf = some d.copy
                    from alookup_aset_self _ _ _] at hc
              exact hc
            · rw [if_neg htf2]
              rw [alookup_aset_ne _ _ _ _ (fun he => htf2 he.symm)] at hc
              exact hc
        · intro hcond a0 ha0
          have htf2 : tf ≠ f := by
            intro he
            subst he
            rcases hcond with hc | hc
            · rw [hfast.1] at hc
              cases hc
            · exact hfast.2 hc
          refine hslowc hcond a0 ?_
          rw [alookup_aset_ne _ _ _ _ (fun he => htf2 he.symm)]
          exact ha0
      · have hrv : (alookup st.1 tf).isSome := by
          rw [alookup_isSome_iff]
          exact htf
        obtain ⟨r, hr⟩ := Option.isSome_iff_exists.mp hrv
        have hstep : fluidStep selector nf st (tf, tobj, some d)
            = Except.ok
                (aset st.1 tf { shape := r.shape, data := (tobj.select selector d r i).2 },
                 aset st.2 tf (i + (tobj.select selector d r i).1)) := by
          simp only [fluidStep]
          rw [if_neg hfast, hi, hr]
        have hkeys1 : (aset st.1 tf
            { shape := r.shape, data := (tobj.select selector d r i).2 }).map Prod.fst
            = st.1.map Prod.fst :=
          map_fst_aset_mem _ _ _ htf
        have hkeys2 : (aset st.2 tf (i + (tobj.select selector d r i).1)).map Prod.fst
            = st.2.map Prod.fst :=
          map_fst_aset_mem _ _ _ (hkeys ▸ htf)
        obtain ⟨rv, ind, hfold, hk1, hk2, hfastc, hslowc⟩ :=
          ih (aset st.1 tf { shape := r.shape, data := (tobj.select selector d r i).2 },
              aset st.2 tf (i + (tobj.select selector d r i).1))
            (by simpa [hkeys1, hkeys2] using hkeys)
            (fun t2 ht2 => by
              rw [show ((aset st.1 tf
                    { shape := r.shape, data := (tobj.select selector d r i).2 },
                  aset st.2 tf (i + (tobj.select selector d r i).1)) :
                  FluidRv × IndMap).1 = aset st.1 tf
                    { shape := r.shape, data := (tobj.select selector d r i).2 } from rfl,
                hkeys1]
              exact hio t2 (List.mem_cons_of_mem _ ht2))
        refine ⟨rv, ind, ?_, by rwa [hkeys1] at hk1, by rwa [hkeys2] at hk2, ?_, ?_⟩
        · rw [List.foldlM_cons, hstep]
          exact hfold
        · intro hcond
          have htf2 : tf ≠ f := by
            intro he
            subst he
            exact hfast hcond
          have hc := hfastc hcond
          cases hr2 : lastBufferFor f rest with
          | some d2 =>
            simp only [lastBufferFor, hr2] at hc ⊢
            exact hc
          | none =>
            simp only [lastBufferFor, hr2] at hc ⊢
            rw [if_neg htf2]
            rw [alookup_aset_ne _ _ _ _ (fun he => htf2 he.symm)] at hc
            exact hc
        · intro hcond a0 ha0
          by_cases htf2 : tf = f
          · subst htf2
            rw [hr] at ha0
            have ha0r : r = a0 := by injection ha0
            refine hslowc hcond { shape := r.shape, data := (tobj.select selector d r i).2 }
              (alookup_aset_self _ _ _) |>.imp ?_
            intro a ⟨h1, h2⟩
            exact ⟨h1, by rw [h2, ha0r]⟩
          · refine hslowc hcond a0 ?_
            rw [alookup_aset_ne _ _ _ _ (fun he => htf2 he.symm)]
            exact ha0

/-- C3 counterexample: one non-nodal field, a GridSelector, declared size
5, and a streamed 7-element buffer — the fast path rebinds the output to
a copy of the buffer, so the returned array has the buffer's shape `[7]`,
not the claimed `(size,) = [5]`. -/
theorem c3_counterexample :
    read_fluid_selection fiC3 selGridC3 ioC3 fieldsC3 5
      = Except.ok [(("gas", "d"), bufC3)]
    ∧ bufC3.shape ≠ [5] := by
  refine ⟨?_, ?_⟩ <;> decide

/-- C3 amended: the fluid read returns, for each requested field, an
array of shape `(size, 2^k)` (k nodal flags set) or `(size,)` — except
under a GridSelector for a non-nodal field, where the returned array is a
copy of the last non-None raw buffer streamed for that field (with that
buffer's shape), or the allocated `(size,)` array if no buffer arrived. -/
theorem c3_fluid_shapes_amended (field_info : FieldKey → FieldInfo) (selector : Selector)
    (io_data : List (FieldKey × FluidObj × Option NDarray)) (fields : List FieldKey)
    (size : Nat) (f : FieldKey)
    (hf : f ∈ fields)
    (hio : ∀ t ∈ io_data, t.1 ∈ fields) :
    ∃ rv ind, read_fluid_selection_full field_info selector io_data fields size
        = Except.ok (rv, ind)
      ∧ ((selector.isGridSelector = true ∧ nodalOf field_info f = false) →
          alookup rv f
            = some ((lastBufferFor f io_data).getD (fluidAllocArr field_info size f)))
      ∧ ((selector.isGridSelector = false ∨ nodalOf field_info f = true) →
          ∃ a, alookup rv f = some a
            ∧ a.shape = (if nodalOf field_info f then
                [size, numNodes field_info f] else [size])) := by
  have hrv0 : alookup (fields.foldl (fun rv g => aset rv g (fluidAllocArr field_info size g))
      ([] : FluidRv)) f = some (fluidAllocArr field_info size f) :=
    alookup_foldl_aset fields _ [] f hf
  have hkeys : (fields.foldl (fun rv g => aset rv g (fluidAllocArr field_info size g))
        ([] : FluidRv)).map Prod.fst
      = (fields.foldl (fun m g => aset m g 0) ([] : IndMap)).map Prod.fst :=
    map_fst_foldl_aset_congr fields _ _ [] [] rfl
  have hio2 : ∀ t ∈ io_data,
      t.1 ∈ (fields.foldl (fun rv g => aset rv g (fluidAllocArr field_info size g))
        ([] : FluidRv)).map Prod.fst := by
    intro t ht
    rw [← alookup_isSome_iff, alookup_foldl_aset fields _ [] t.1 (hio t ht)]
    rfl
  obtain ⟨rv, ind, hfold, hk1, hk2, hfastc, hslowc⟩ :=
    fluid_fold_master selector (fields.filter (fun g => nodalOf field_info g)) io_data
      (fields.foldl (fun rv g => aset rv g (fluidAllocArr field_info size g)) [],
       fields.foldl (fun m g => aset m g 0) []) f hkeys hio2
  refine ⟨rv, ind, hfold, ?_, ?_⟩
  · intro hcond
    have hnf : f ∉ fields.filter (fun g => nodalOf field_info g) := by
      intro hmem
      have := (List.mem_filter.mp hmem).2
      rw [hcond.2] at this
      cases this
    have hc := hfastc ⟨hcond.1, hnf⟩
    cases hlast : lastBufferFor f io_data with
    | some d =>
      rw [hlast] at hc
      simpa using hc
    | none =>
      rw [hlast] at hc
      simpa [hrv0] using hc
  · intro hcond
    have hcond2 : selector.isGridSelector = false
        ∨ f ∈ fields.filter (fun g => nodalOf field_info g) := by
      rcases hcond with hc | hc
      · exact Or.inl hc
      · exact Or.inr (List.mem_filter.mpr ⟨hf, by rw [hc]⟩)
    obtain ⟨a, ha, hshape⟩ := hslowc hcond2 _ hrv0
    refine ⟨a, ha, ?_⟩
    rw [hshape]
    unfold fluidAllocArr
    by_cases hn : nodalOf field_info f <;> simp [hn]

/-- C3 amended witness: a non-grid selector with one non-nodal field and
declared size 5 yields a `[5]`-shaped output. -/
theorem c3_fluid_shapes_amended_witness :
    ((("gas", "d") ∈ fieldsC3) ∧ (∀ t ∈ ioC3, t.1 ∈ fieldsC3))
    ∧ (∃ rv ind, read_fluid_selection_full fiC3 selC3w ioC3 fieldsC3 5
          = Except.ok (rv, ind)
        ∧ ((selC3w.isGridSelector = true ∧ nodalOf fiC3 ("gas", "d") = false) →
            alookup rv ("gas", "d")
              = some ((lastBufferFor ("gas", "d") ioC3).getD (fluidAllocArr fiC3 5 ("gas", "d"))))
        ∧ ((selC3w.isGridSelector = false ∨ nodalOf fiC3 ("gas", "d") = true) →
            ∃ a, alookup rv ("gas", "d") = some a
              ∧ a.shape = (if nodalOf fiC3 ("gas", "d") then
                  [5, numNodes fiC3 ("gas", "d")] else [5]))) :=
  ⟨⟨by decide, by decide⟩,
   c3_fluid_shapes_amended fiC3 selC3w ioC3 fieldsC3 5 ("gas", "d") (by decide) (by decide)⟩

/-! # C8: the particle counting phase -/

theorem updFn_self (ps : PSize) (k : String) (v : Nat) : updFn ps k v k = v := by
  simp [updFn]

theorem updFn_ne (ps : PSize) (k : String) (v : Nat) (x : String) (h : x ≠ k) :
    updFn ps k v x = ps x := by
  simp [updFn, h]

theorem ptf_fold_not_mem (df : DataFile) (ptf : Ptf) (pt : String)
    (hpt : pt ∉ ptf.map Prod.fst) :
    ∀ ps : PSize,
      (ptf.foldl
          (fun ps3 kv => updFn ps3 kv.1 (ps3 kv.1 + (alookup df.total_particles kv.1).getD 0))
          ps) pt = ps pt := by
  induction ptf with
  | nil => intro ps; rfl
  | cons kv rest ih =>
    intro ps
    simp only [List.map_cons, List.mem_cons] at hpt
    push_neg at hpt
    simp only [List.foldl_cons]
    rw [ih hpt.2, updFn_ne _ _ _ _ hpt.1]

theorem ptf_fold_count (df : DataFile) (ptf : Ptf) (pt : String)
    (hnd : (ptf.map Prod.fst).Nodup) (hpt : pt ∈ ptf.map Prod.fst) :
    ∀ ps : PSize,
      (ptf.foldl
          (fun ps3 kv => updFn ps3 kv.1 (ps3 kv.1 + (alookup df.total_particles kv.1).getD 0))
          ps) pt = ps pt + (alookup df.total_particles pt).getD 0 := by
  induction ptf with
  | nil => simp at hpt
  | cons kv rest ih =>
    intro ps
    simp only [List.map_cons, List.nodup_cons] at hnd
    simp only [List.map_cons, List.mem_cons] at hpt
    simp only [List.foldl_cons]
    by_cases h : pt = kv.1
    · rw [ptf_fold_not_mem df rest pt (by rw [h]; exact hnd.1)]
      rw [h, updFn_self]
    · rcases hpt with hc | hc
      · exact absurd hc h
      · rw [ih hnd.2 hc, updFn_ne _ _ _ _ h]

theorem df_fold_count (dfs : List DataFile) (ptf : Ptf) (pt : String)
    (hnd : (ptf.map Prod.fst).Nodup) (hpt : pt ∈ ptf.map Prod.fst) :
    ∀ ps : PSize,
      (dfs.foldl
          (fun ps2 df =>
            ptf.foldl
              (fun ps3 kv =>
                updFn ps3 kv.1 (ps3 kv.1 + (alookup df.total_particles kv.1).getD 0))
              ps2)
          ps) pt
        = ps pt + (dfs.map (fun df => (alookup df.total_particles pt).getD 0)).sum := by
  induction dfs with
  | nil => intro ps; simp
  | cons df rest ih =>
    intro ps
    simp only [List.foldl_cons, List.map_cons, List.sum_cons]
    rw [ih, ptf_fold_count df ptf pt hnd hpt ps]
    ring

theorem coords_fold_count (coords : CoordStream) (selector : Selector) (pt : String) :
    ∀ ps : PSize,
      count_selected_particles ps coords selector pt
        = ps pt + (coords.map
            (fun e => if e.1 = pt then
              selector.count_points e.2.1.1 e.2.1.2.1 e.2.1.2.2 e.2.2 else 0)).sum := by
  induction coords with
  | nil => intro ps; simp [count_selected_particles]
  | cons e rest ih =>
    intro ps
    simp only [count_selected_particles, List.foldl_cons] at ih ⊢
    rw [ih, List.map_cons, List.sum_cons]
    by_cases h : e.1 = pt
    · rw [if_pos h, ← h, updFn_self]
      ring
    · rw [if_neg h, updFn_ne _ _ _ _ (fun hc => h hc.symm)]
      ring

/-- C8: when the selector reports selecting all data, the particle
subclass counts by summing each sorted data file's precomputed per-type
totals (no per-particle evaluation); otherwise counts accumulate the
selector's `count_points` over the per-chunk coordinate stream. -/
theorem c8_counting_phase (coordsOf : List Chunk → Ptf → CoordStream)
    (psize : PSize) (chunks : List Chunk) (ptf : Ptf) (selector : Selector) (pt : String)
    (hnd : (ptf.map Prod.fst).Nodup) (hpt : pt ∈ ptf.map Prod.fst) :
    (selector.is_all_data = true →
      count_particles_chunks_p coordsOf psize chunks ptf selector pt
        = psize pt + ((sorted_chunk_iterator chunks).map
            (fun df => (alookup df.total_particles pt).getD 0)).sum)
    ∧ (selector.is_all_data = false →
      count_particles_chunks_p coordsOf psize chunks ptf selector pt
        = psize pt + ((coordsOf chunks ptf).map
            (fun e => if e.1 = pt then
              selector.count_points e.2.1.1 e.2.1.2.1 e.2.1.2.2 e.2.2 else 0)).sum) := by
  constructor
  · intro hall
    unfold count_particles_chunks_p
    rw [if_pos hall]
    exact df_fold_count _ ptf pt hnd hpt psize
  · intro hall
    unfold count_particles_chunks_p
    rw [if_neg (by rw [hall]; exact fun h => by cases h)]
    exact coords_fold_count _ selector pt psize

/-- C8 witness: under an all-data selector, the counts for type a over
the two sorted files f1, f2 are the summed totals 3 + 4. -/
theorem c8_counting_phase_witness :
    ((ptfW.map Prod.fst).Nodup ∧ "a" ∈ ptfW.map Prod.fst)
    ∧ ((selW.is_all_data = true →
        count_particles_chunks_p coordsOfW (fun _ => 0) chunksW ptfW selW "a"
          = (fun _ => 0 : PSize) "a" + ((sorted_chunk_iterator chunksW).map
              (fun df => (alookup df.total_particles "a").getD 0)).sum)
      ∧ (selW.is_all_data = false →
        count_particles_chunks_p coordsOfW (fun _ => 0) chunksW ptfW selW "a"
          = (fun _ => 0 : PSize) "a" + ((coordsOfW chunksW ptfW).map
              (fun e => if e.1 = "a" then
                selW.count_points e.2.1.1 e.2.1.2.1 e.2.1.2.2 e.2.2 else 0)).sum)) :=
  ⟨⟨by decide, by decide⟩,
   c8_counting_phase coordsOfW (fun _ => 0) chunksW ptfW selW "a" (by decide) (by decide)⟩

/-! # C4 and C6: the particle fill, fan-out and trim machinery -/

theorem flatten_replicate_length {α : Type} (n : Nat) (l : List (List α)) :
    ((List.replicate n l).flatten).length = n * l.length := by
  induction n with
  | zero => simp
  | succ k ih =>
    rw [List.replicate_succ, List.flatten_cons, List.length_append, ih]
    ring

theorem flatMap_nil_of {α β : Type} (l : List α) (g : α → List β)
    (h : ∀ x ∈ l, g x = []) : l.flatMap g = [] := by
  induction l with
  | nil => rfl
  | cons x rest ih =>
    rw [List.flatMap_cons, h x (List.mem_cons_self _ _),
      ih (fun y hy => h y (List.mem_cons_of_mem _ hy))]
    rfl

theorem alookup_mem {α β : Type} [DecidableEq α] (m : List (α × β)) (a : α) (b : β)
    (h : alookup m a = some b) : (a, b) ∈ m := by
  induction m with
  | nil => simp [alookup] at h
  | cons p rest ih =>
    obtain ⟨pk, pv⟩ := p
    by_cases hk : a = pk
    · subst hk
      have h2 : some pv = some b := by simpa [alookup] using h
      injection h2 with hb
      subst hb
      exact List.mem_cons_self _ _
    · simp only [alookup, if_neg hk] at h
      exact List.mem_cons_of_mem _ (ih h)

theorem sliceAssign_ok (a : PArr) (i : Nat) (vals : PArr) (arr2 : PArr)
    (h : sliceAssign a i vals = Except.ok arr2) :
    vals.rowShape = a.rowShape ∧ i + vals.rows.length ≤ a.rows.length
      ∧ arr2 = { rowShape := a.rowShape,
                 rows := a.rows.take i ++ vals.rows
                   ++ a.rows.drop (i + vals.rows.length) } := by
  unfold sliceAssign at h
  split_ifs at h with hc
  injection h with h2
  exact ⟨hc.1, hc.2, h2.symm⟩

theorem fillOne_eq_none_ind (vals : PArr) (st : PRv × IndMap) (g : FieldKey)
    (hi : alookup st.2 g = none) : fillOne vals st g = Except.error () := by
  unfold fillOne
  rw [hi]

theorem fillOne_eq_none_rv (vals : PArr) (st : PRv × IndMap) (g : FieldKey) (i : Nat)
    (hi : alookup st.2 g = some i) (ha : alookup st.1 g = none) :
    fillOne vals st g = Except.error () := by
  unfold fillOne
  rw [hi, ha]

theorem fillOne_eq_some (vals : PArr) (st : PRv × IndMap) (g : FieldKey) (i : Nat)
    (arr : PArr) (hi : alookup st.2 g = some i) (ha : alookup st.1 g = some arr) :
    fillOne vals st g
      = match sliceAssign arr i vals with
        | Except.ok arr2 =>
          Except.ok (aset st.1 g arr2, aset st.2 g (i + vals.rows.length))
        | Except.error e => Except.error e := by
  unfold fillOne
  rw [hi, ha]

theorem fillOne_ok (vals : PArr) (st : PRv × IndMap) (g : FieldKey) (st2 : PRv × IndMap)
    (h : fillOne vals st g = Except.ok st2) :
    ∃ i arr, alookup st.2 g = some i ∧ alookup st.1 g = some arr
      ∧ vals.rowShape = arr.rowShape ∧ i + vals.rows.length ≤ arr.rows.length
      ∧ st2 = (aset st.1 g
            { rowShape := arr.rowShape,
              rows := arr.rows.take i ++ vals.rows ++ arr.rows.drop (i + vals.rows.length) },
          aset st.2 g (i + vals.rows.length)) := by
  cases hi : alookup st.2 g with
  | none => exact Except.noConfusion ((fillOne_eq_none_ind vals st g hi).symm.trans h)
  | some i =>
    cases ha : alookup st.1 g with
    | none =>
      exact Except.noConfusion ((fillOne_eq_none_rv vals st g i hi ha).symm.trans h)
    | some arr =>
      have h2 := (fillOne_eq_some vals st g i arr hi ha).symm.trans h
      cases hs : sliceAssign arr i vals with
      | error e =>
        rw [hs] at h2
        exact Except.noConfusion h2
      | ok arr2 =>
        rw [hs] at h2
        obtain ⟨hc1, hc2, harr2⟩ := sliceAssign_ok arr i vals arr2 hs
        refine ⟨i, arr, rfl, rfl, hc1, hc2, ?_⟩
        injection h2 with h3
        rw [← h3, harr2]

theorem fillOne_keys (vals : PArr) (st : PRv × IndMap) (g : FieldKey) (st2 : PRv × IndMap)
    (h : fillOne vals st g = Except.ok st2) :
    st2.1.map Prod.fst = st.1.map Prod.fst ∧ st2.2.map Prod.fst = st.2.map Prod.fst := by
  obtain ⟨i, arr, hi, ha, _, _, hst⟩ := fillOne_ok vals st g st2 h
  subst hst
  constructor
  · exact map_fst_aset_mem _ _ _ ((alookup_isSome_iff _ _).mp (by rw [ha]; rfl))
  · exact map_fst_aset_mem _ _ _ ((alookup_isSome_iff _ _).mp (by rw [hi]; rfl))

theorem fill_fold_keys (vals : PArr) (ts : List FieldKey) :
    ∀ (st st2 : PRv × IndMap), ts.foldlM (fillOne vals) st = Except.ok st2 →
      st2.1.map Prod.fst = st.1.map Prod.fst ∧ st2.2.map Prod.fst = st.2.map Prod.fst := by
  induction ts with
  | nil =>
    intro st st2 h
    injection h with h2
    rw [h2]
    exact ⟨rfl, rfl⟩
  | cons g rest ih =>
    intro st st2 h
    rw [List.foldlM_cons] at h
    cases hg : fillOne vals st g with
    | error e => rw [hg] at h; cases h
    | ok st1 =>
      rw [hg] at h
      have h1 := fillOne_keys vals st g st1 hg
      have h2 := ih st1 st2 h
      exact ⟨h2.1.trans h1.1, h2.2.trans h1.2⟩

theorem fillLoop_keys (fm : FMaps) (stream : List (FieldKey × PArr)) :
    ∀ (st st2 : PRv × IndMap), fillLoop fm stream st = Except.ok st2 →
      st2.1.map Prod.fst = st.1.map Prod.fst ∧ st2.2.map Prod.fst = st.2.map Prod.fst := by
  induction stream with
  | nil =>
    intro st st2 h
    injection h with h2
    rw [h2]
    exact ⟨rfl, rfl⟩
  | cons b rest ih =>
    intro st st2 h
    unfold fillLoop at h
    rw [List.foldlM_cons] at h
    cases hb : fillTargets fm st b with
    | error e => rw [hb] at h; cases h
    | ok st1 =>
      rw [hb] at h
      have h1 := fill_fold_keys b.2 _ st st1 hb
      have h2 := ih st1 st2 h
      exact ⟨h2.1.trans h1.1, h2.2.trans h1.2⟩

theorem fill_fold_tracks (vals : PArr) (ts : List FieldKey) (f : FieldKey) :
    ∀ (st st2 : PRv × IndMap) (a : PArr) (i : Nat),
      ts.foldlM (fillOne vals) st = Except.ok st2 →
      alookup st.1 f = some a → alookup st.2 f = some i →
      ∃ a2, alookup st2.1 f = some a2
        ∧ alookup st2.2 f = some (i + ts.count f * vals.rows.length)
        ∧ a2.rowShape = a.rowShape
        ∧ a2.rows.length = a.rows.length
        ∧ a2.rows.take (i + ts.count f * vals.rows.length)
            = a.rows.take i ++ (List.replicate (ts.count f) vals.rows).flatten
        ∧ (ts.count f ≠ 0 → i + ts.count f * vals.rows.length ≤ a.rows.length) := by
  induction ts with
  | nil =>
    intro st st2 a i h ha hi
    injection h with h2
    subst h2
    refine ⟨a, ha, ?_, rfl, rfl, ?_, ?_⟩
    · simpa using hi
    · simp
    · intro hc
      exact absurd rfl hc
  | cons g rest ih =>
    intro st st2 a i h ha hi
    rw [List.foldlM_cons] at h
    cases hg : fillOne vals st g with
    | error e => rw [hg] at h; cases h
    | ok st1 =>
      rw [hg] at h
      obtain ⟨j, arr, hj, harr, hshape, hbound, hst1⟩ := fillOne_ok vals st g st1 hg
      by_cases hgf : g = f
      · subst hgf
        rw [harr] at ha
        have haa : arr = a := by injection ha
        subst haa
        rw [hj] at hi
        have hji : j = i := by injection hi
        subst hji
        set arr2 : PArr :=
          { rowShape := arr.rowShape,
            rows := arr.rows.take j ++ vals.rows ++ arr.rows.drop (j + vals.rows.length) }
          with harr2
        have ha1 : alookup st1.1 g = some arr2 := by
          rw [hst1]
          exact alookup_aset_self _ _ _
        have hi1 : alookup st1.2 g = some (j + vals.rows.length) := by
          rw [hst1]
          exact alookup_aset_self _ _ _
        have hlen2 : arr2.rows.length = arr.rows.length := by
          rw [harr2]
          simp only [List.length_append, List.length_take, List.length_drop]
          omega
        obtain ⟨a2, h1, h2, h3, h4, h5, h6⟩ := ih st1 st2 arr2 (j + vals.rows.length) h ha1 hi1
        have hcount : (g :: rest).count g = rest.count g + 1 := by
          rw [List.count_cons]
          simp
        have htake1 : (arr.rows.take j).length = j :=
          List.length_take_of_le (by omega)
        have hlen12 : (arr.rows.take j ++ vals.rows).length = j + vals.rows.length := by
          rw [List.length_append, htake1]
        have htake2 : arr2.rows.take (j + vals.rows.length)
            = arr.rows.take j ++ vals.rows := by
          rw [harr2]
          rw [List.take_append_of_le_length (by rw [hlen12])]
          exact List.take_of_length_le (by rw [hlen12])
        refine ⟨a2, h1, ?_, ?_, ?_, ?_, ?_⟩
        · rw [h2, hcount]
          congr 1
          ring
        · rw [h3, harr2]
        · rw [h4, hlen2]
        · rw [hcount]
          have harith : j + (rest.count g + 1) * vals.rows.length
              = (j + vals.rows.length) + rest.count g * vals.rows.length := by ring
          rw [harith, h5, htake2, List.replicate_succ, List.flatten_cons,
            List.append_assoc]
        · intro _
          rcases Nat.eq_zero_or_pos (rest.count g) with hz | hp
          · rw [hcount, hz]
            simpa using hbound
          · have := h6 (by omega)
            rw [hlen2] at this
            rw [hcount]
            have harith : j + (rest.count g + 1) * vals.rows.length
                = (j + vals.rows.length) + rest.count g * vals.rows.length := by ring
            omega
      · have ha1 : alookup st1.1 f = some a := by
          rw [hst1]
          rw [alookup_aset_ne _ _ _ _ (fun he => hgf he.symm)]
          exact ha
        have hi1 : alookup st1.2 f = some i := by
          rw [hst1]
          rw [alookup_aset_ne _ _ _ _ (fun he => hgf he.symm)]
          exact hi
        have hcount : (g :: rest).count f = rest.count f := by
          rw [List.count_cons]
          simp [hgf]
        rw [hcount]
        exact ih st1 st2 a i h ha1 hi1

theorem fillLoop_tracks (fm : FMaps) (stream : List (FieldKey × PArr)) (f : FieldKey) :
    ∀ (st st2 : PRv × IndMap) (a : PArr) (i : Nat),
      fillLoop fm stream st = Except.ok st2 →
      alookup st.1 f = some a → alookup st.2 f = some i →
      i ≤ a.rows.length →
      ∃ a2, alookup st2.1 f = some a2
        ∧ alookup st2.2 f = some (i + (contribRowsC fm f stream).length)
        ∧ a2.rowShape = a.rowShape ∧ a2.rows.length = a.rows.length
        ∧ i + (contribRowsC fm f stream).length ≤ a.rows.length
        ∧ a2.rows.take (i + (contribRowsC fm f stream).length)
            = a.rows.take i ++ contribRowsC fm f stream := by
  induction stream with
  | nil =>
    intro st st2 a i h ha hi hle
    injection h with h2
    subst h2
    refine ⟨a, ha, ?_, rfl, rfl, ?_, ?_⟩
    · simpa [contribRowsC] using hi
    · simpa [contribRowsC] using hle
    · simp [contribRowsC]
  | cons b rest ih =>
    intro st st2 a i h ha hi hle
    unfold fillLoop at h
    rw [List.foldlM_cons] at h
    cases hb : fillTargets fm st b with
    | error e => rw [hb] at h; exact Except.noConfusion h
    | ok st1 =>
      rw [hb] at h
      obtain ⟨a1, k1, k2, k3, k4, k5, k6⟩ :=
        fill_fold_tracks b.2 ((alookup fm b.1).getD []) f st st1 a i hb ha hi
      have hle1 : i + ((alookup fm b.1).getD []).count f * b.2.rows.length
          ≤ a1.rows.length := by
        rcases Nat.eq_zero_or_pos (((alookup fm b.1).getD []).count f) with hz | hp
        · rw [hz, k4]
          omega
        · rw [k4]
          exact k6 (by omega)
      obtain ⟨a2, m1, m2, m3, m4, m5, m6⟩ :=
        ih st1 st2 a1 (i + ((alookup fm b.1).getD []).count f * b.2.rows.length) h k1 k2 hle1
      have hcontrib : contribRowsC fm f (b :: rest)
          = (List.replicate (((alookup fm b.1).getD []).count f) b.2.rows).flatten
            ++ contribRowsC fm f rest := by
        simp [contribRowsC, List.flatMap_cons]
      have hclen : (contribRowsC fm f (b :: rest)).length
          = ((alookup fm b.1).getD []).count f * b.2.rows.length
            + (contribRowsC fm f rest).length := by
        rw [hcontrib, List.length_append, flatten_replicate_length]
      refine ⟨a2, m1, ?_, m3.trans k3, m4.trans k4, ?_, ?_⟩
      · rw [m2, hclen]
        congr 1
        ring
      · rw [hclen, ← k4]
        omega
      · have harith : i + (contribRowsC fm f (b :: rest)).length
            = (i + ((alookup fm b.1).getD []).count f * b.2.rows.length)
              + (contribRowsC fm f rest).length := by
          rw [hclen]
          ring
        rw [harith, m6, k5, hcontrib, List.append_assoc]

/-! ## Trimming -/

theorem trimAll_preserve (ind : IndMap) (f : FieldKey) (hf : f ∉ ind.map Prod.fst) :
    ∀ rv : PRv, alookup (trimAll ind rv) f = alookup rv f := by
  induction ind with
  | nil => intro rv; rfl
  | cons kv rest ih =>
    intro rv
    simp only [List.map_cons, List.mem_cons] at hf
    push_neg at hf
    unfold trimAll
    rw [List.foldl_cons]
    refine (ih hf.2 _).trans ?_
    cases hk : alookup rv kv.1 with
    | none => simp [hk]
    | some a =>
      simp only [hk]
      exact alookup_aset_ne _ _ _ _ hf.1

theorem trimAll_lookup (ind : IndMap) (f : FieldKey) :
    ∀ (rv : PRv) (n : Nat) (a : PArr),
      (ind.map Prod.fst).Nodup → alookup ind f = some n → alookup rv f = some a →
      alookup (trimAll ind rv) f
        = some { rowShape := a.rowShape, rows := a.rows.take n } := by
  induction ind with
  | nil =>
    intro rv n a _ hn _
    simp [alookup] at hn
  | cons kv rest ih =>
    intro rv n a hnd hn ha
    obtain ⟨k, m⟩ := kv
    simp only [List.map_cons, List.nodup_cons] at hnd
    unfold trimAll
    rw [List.foldl_cons]
    by_cases hk : f = k
    · subst hk
      have hm : m = n := by simpa [alookup] using hn
      subst hm
      refine (trimAll_preserve rest f hnd.1 _).trans ?_
      simp only [ha]
      exact alookup_aset_self _ _ _
    · have hn2 : alookup rest f = some n := by simpa [alookup, hk] using hn
      refine ih _ n a hnd.2 hn2 ?_
      cases hkk : alookup rv k with
      | none => simpa [hkk] using ha
      | some b =>
        simp only [hkk]
        rw [alookup_aset_ne _ _ _ _ hk]
        exact ha

/-! ## At most one fan-out target occurrence per mapped field -/

theorem count_getD_appendAt_self (m : FMaps) (k : FieldKey) (v g : FieldKey) :
    ((alookup (appendAt m k v) k).getD []).count g
      = ((alookup m k).getD []).count g + (if v = g then 1 else 0) := by
  rw [alookup_appendAt_self]
  simp [List.count_append, List.count_cons, beq_iff_eq]

theorem count_getD_appendAt_ne (m : FMaps) (k : FieldKey) (v : FieldKey)
    (k2 : FieldKey) (g : FieldKey) (h : k2 ≠ k) :
    ((alookup (appendAt m k v) k2).getD []).count g
      = ((alookup m k2).getD []).count g := by
  rw [alookup_appendAt_ne _ _ _ _ h]

theorem pts_fold_count_aux (φ : FieldKey) :
    ∀ (pts : List String), pts.Nodup →
    ∀ fm : FMaps,
      (∀ pt ∈ pts, ((alookup fm (pt, φ.2)).getD []).count φ = 0) →
      (∀ k, ((alookup fm k).getD []).count φ ≤ 1) →
      (∀ k, ((alookup (pts.foldl (fun m2 pt => appendAt m2 (pt, φ.2) φ) fm) k).getD
          []).count φ ≤ 1)
      ∧ (∀ g, g ≠ φ → ∀ k,
          ((alookup (pts.foldl (fun m2 pt => appendAt m2 (pt, φ.2) φ) fm) k).getD
            []).count g
          = ((alookup fm k).getD []).count g) := by
  intro pts
  induction pts with
  | nil =>
    intro _ fm _ hle
    exact ⟨hle, fun g _ k => rfl⟩
  | cons pt rest ih =>
    intro hnd fm hz hle
    simp only [List.nodup_cons] at hnd
    simp only [List.foldl_cons]
    have hz1 : ∀ pt2 ∈ rest,
        ((alookup (appendAt fm (pt, φ.2) φ) (pt2, φ.2)).getD []).count φ = 0 := by
      intro pt2 hpt2
      have hne : (pt2, φ.2) ≠ (pt, φ.2) := by
        intro he
        have : pt2 = pt := congrArg Prod.fst he
        exact hnd.1 (this ▸ hpt2)
      rw [count_getD_appendAt_ne _ _ _ _ _ hne]
      exact hz pt2 (List.mem_cons_of_mem _ hpt2)
    have hle1 : ∀ k, ((alookup (appendAt fm (pt, φ.2) φ) k).getD []).count φ ≤ 1 := by
      intro k
      by_cases hk : k = (pt, φ.2)
      · subst hk
        rw [count_getD_appendAt_self, hz pt (List.mem_cons_self _ _)]
        simp
      · rw [count_getD_appendAt_ne _ _ _ _ _ hk]
        exact hle k
    obtain ⟨p1, p2⟩ := ih hnd.2 (appendAt fm (pt, φ.2) φ) hz1 hle1
    refine ⟨p1, ?_⟩
    intro g hg k
    rw [p2 g hg k]
    by_cases hk : k = (pt, φ.2)
    · subst hk
      rw [count_getD_appendAt_self]
      have hne2 : ¬φ = g := fun he => hg he.symm
      simp [hne2]
    · rw [count_getD_appendAt_ne _ _ _ _ _ hk]

theorem bfm_aux (unions : Unions) (hu : ∀ u ∈ unions, u.2.Nodup) :
    ∀ (fields : List FieldKey), fields.Nodup →
    ∀ fm0 : FMaps,
      (∀ k g, g ∈ fields → ((alookup fm0 k).getD []).count g = 0) →
      (∀ k g, ((alookup fm0 k).getD []).count g ≤ 1) →
      ∀ k g, ((alookup (fields.foldl
          (fun fm field =>
            match alookup unions field.1 with
            | some pts => pts.foldl (fun m2 pt => appendAt m2 (pt, field.2) field) fm
            | none => appendAt fm field field)
          fm0) k).getD []).count g ≤ 1 := by
  intro fields
  induction fields with
  | nil =>
    intro _ fm0 _ h1 k g
    exact h1 k g
  | cons φ rest ih =>
    intro hnd fm0 h0 h1 k g
    simp only [List.nodup_cons] at hnd
    simp only [List.foldl_cons]
    cases hun : alookup unions φ.1 with
    | none =>
      refine ih hnd.2 (appendAt fm0 φ φ) ?_ ?_ k g
      · intro k2 g2 hg2
        have hgne : g2 ≠ φ := fun he => hnd.1 (he ▸ hg2)
        by_cases hk2 : k2 = φ
        · rw [hk2, count_getD_appendAt_self, h0 φ g2 (List.mem_cons_of_mem _ hg2)]
          have hne2 : ¬φ = g2 := fun he => hgne he.symm
          simp [hne2]
        · rw [count_getD_appendAt_ne _ _ _ _ _ hk2]
          exact h0 k2 g2 (List.mem_cons_of_mem _ hg2)
      · intro k2 g2
        by_cases hk2 : k2 = φ
        · rw [hk2, count_getD_appendAt_self]
          by_cases hg2 : φ = g2
          · rw [← hg2, h0 φ φ (List.mem_cons_self _ _)]
            simp
          · rw [if_neg hg2]
            simpa using h1 φ g2
        · rw [count_getD_appendAt_ne _ _ _ _ _ hk2]
          exact h1 k2 g2
    | some pts =>
      have hptsnd : pts.Nodup := hu (φ.1, pts) (alookup_mem unions φ.1 pts hun)
      obtain ⟨p1, p2⟩ := pts_fold_count_aux φ pts hptsnd fm0
        (fun pt _ => h0 _ φ (List.mem_cons_self _ _)) (fun k2 => h1 k2 φ)
      refine ih hnd.2 _ ?_ ?_ k g
      · intro k2 g2 hg2
        have hgne : g2 ≠ φ := fun he => hnd.1 (he ▸ hg2)
        rw [p2 g2 hgne k2]
        exact h0 k2 g2 (List.mem_cons_of_mem _ hg2)
      · intro k2 g2
        by_cases hg2 : g2 = φ
        · subst hg2
          exact p1 k2
        · rw [p2 g2 hg2 k2]
          exact h1 k2 g2

theorem buildFieldMaps_count_le_one (unions : Unions) (fields : List FieldKey)
    (hnd : fields.Nodup) (hu : ∀ u ∈ unions, u.2.Nodup) (k g : FieldKey) :
    ((alookup (buildFieldMaps unions fields) k).getD []).count g ≤ 1 := by
  refine bfm_aux unions hu fields hnd [] ?_ ?_ k g
  · intro k2 g2 _
    simp [alookup]
  · intro k2 g2
    simp [alookup]

theorem contrib_eq (fm : FMaps) (f : FieldKey) (stream : List (FieldKey × PArr))
    (h : ∀ k, ((alookup fm k).getD []).count f ≤ 1) :
    contribRowsC fm f stream = contribRows fm f stream := by
  induction stream with
  | nil => rfl
  | cons b rest ih =>
    simp only [contribRowsC, contribRows, List.flatMap_cons] at ih ⊢
    rw [ih]
    congr 1
    cases hcc : ((alookup fm b.1).getD []).count f with
    | zero =>
      have hnm : f ∉ (alookup fm b.1).getD [] := List.count_eq_zero.mp hcc
      simp [hnm]
    | succ nn =>
      have h1 := h b.1
      rw [hcc] at h1
      have hz : nn = 0 := by omega
      subst hz
      have hmem : f ∈ (alookup fm b.1).getD [] :=
        List.count_pos_iff.mp (by rw [hcc]; omega)
      simp [hmem]

/-! ## Union fan-out into ptf -/

theorem mem_getD_appendAt_mono {α β : Type} [DecidableEq α]
    (m : List (α × List β)) (k2 : α) (v : β) (k : α) (x : β)
    (h : x ∈ (alookup m k).getD []) :
    x ∈ (alookup (appendAt m k2 v) k).getD [] := by
  by_cases hk : k = k2
  · subst hk
    rw [alookup_appendAt_self]
    simp only [Option.getD_some]
    exact List.mem_append_left _ h
  · rw [alookup_appendAt_ne _ _ _ _ hk]
    exact h

theorem pts_fold_append_mono (fn : String) (pts : List String) :
    ∀ (m : Ptf) (pt : String) (x : String), x ∈ (alookup m pt).getD [] →
      x ∈ (alookup (pts.foldl (fun m2 p => appendAt m2 p fn) m) pt).getD [] := by
  induction pts with
  | nil => intro m pt x hx; exact hx
  | cons p rest ih =>
    intro m pt x hx
    simp only [List.foldl_cons]
    exact ih _ pt x (mem_getD_appendAt_mono m p fn pt x hx)

theorem pts_fold_append_adds (fn : String) (pts : List String) :
    ∀ (m : Ptf) (pt : String), pt ∈ pts →
      fn ∈ (alookup (pts.foldl (fun m2 p => appendAt m2 p fn) m) pt).getD [] := by
  induction pts with
  | nil => intro m pt hpt; simp at hpt
  | cons p rest ih =>
    intro m pt hpt
    simp only [List.foldl_cons]
    by_cases hp : pt ∈ rest
    · exact ih _ pt hp
    · have hpp : p = pt := by
        rcases List.mem_cons.mp hpt with hc | hc
        · exact hc.symm
        · exact absurd hc hp
      refine pts_fold_append_mono fn rest _ pt fn ?_
      rw [hpp, alookup_appendAt_self]
      simp only [Option.getD_some]
      exact List.mem_append_right _ (List.mem_cons_self _ _)

theorem buildPtf_mono (unions : Unions) (fields : List FieldKey) :
    ∀ (ptf0 : Ptf) (pt x : String), x ∈ (alookup ptf0 pt).getD [] →
      x ∈ (alookup (fields.foldl
          (fun ptf field =>
            match alookup unions field.1 with
            | some pts => pts.foldl (fun p pt2 => appendAt p pt2 field.2) ptf
            | none => appendAt ptf field.1 field.2)
          ptf0) pt).getD [] := by
  induction fields with
  | nil => intro ptf0 pt x hx; exact hx
  | cons φ rest ih =>
    intro ptf0 pt x hx
    simp only [List.foldl_cons]
    refine ih _ pt x ?_
    cases hun : alookup unions φ.1 with
    | none => exact mem_getD_appendAt_mono ptf0 φ.1 φ.2 pt x hx
    | some pts => exact pts_fold_append_mono φ.2 pts ptf0 pt x hx

theorem buildPtf_adds (unions : Unions) (fields : List FieldKey) (f : FieldKey)
    (pts : List String) (hun : alookup unions f.1 = some pts)
    (pt : String) (hpt : pt ∈ pts) :
    ∀ (ptf0 : Ptf), f ∈ fields →
      f.2 ∈ (alookup (fields.foldl
          (fun ptf field =>
            match alookup unions field.1 with
            | some pts2 => pts2.foldl (fun p pt2 => appendAt p pt2 field.2) ptf
            | none => appendAt ptf field.1 field.2)
          ptf0) pt).getD [] := by
  induction fields with
  | nil => intro ptf0 hf; simp at hf
  | cons φ rest ih =>
    intro ptf0 hf
    simp only [List.foldl_cons]
    by_cases hr : f ∈ rest
    · exact ih _ hr
    · have hφ : φ = f := by
        rcases List.mem_cons.mp hf with hc | hc
        · exact hc.symm
        · exact absurd hc hr
      subst hφ
      simp only [hun]
      exact buildPtf_mono unions rest _ pt φ.2 (pts_fold_append_adds φ.2 pts ptf0 pt hpt)

/-! ## Assembling the particle-selection theorems -/

theorem except_map_ok {α β : Type} (g : α → β) (x : Except Unit α) (y : β)
    (h : Except.map g x = Except.ok y) : ∃ st, x = Except.ok st ∧ y = g st := by
  cases x with
  | error e => simp [Except.map] at h
  | ok st =>
    refine ⟨st, rfl, ?_⟩
    have h2 : (Except.ok (g st) : Except Unit β) = Except.ok y := by
      simpa [Except.map] using h
    injection h2 with h3
    exact h3.symm

theorem initRv_lookup (unions : Unions)
    (vf : List (String × Nat)) (af : List (String × List Nat))
    (countFn : PSize → List Chunk → Ptf → Selector → PSize)
    (chunks : List Chunk) (selector : Selector) (fields : List FieldKey)
    (f : FieldKey) (hf : f ∈ fields) :
    alookup (initRv unions vf af countFn chunks selector fields) f
      = some (pempty ((alookup (fsizeOf unions countFn chunks selector fields) f).getD 0)
          (allocRowShape vf af f)) :=
  alookup_foldl_aset fields _ [] f hf

theorem initInd_lookup (fields : List FieldKey) (f : FieldKey) (hf : f ∈ fields) :
    alookup (initInd fields) f = some 0 :=
  alookup_foldl_aset fields (fun _ => 0) [] f hf

theorem initInd_keys_nodup (fields : List FieldKey) :
    ((initInd fields).map Prod.fst).Nodup :=
  nodup_keys_foldl_aset fields (fun _ => 0) [] (by simp)

/-- C4: a requested logical field whose type is a union is fetched for
every member type (its name lands in each member's ptf list), and the
trimmed output of the field equals the concatenation, in the
sorted-DataFile stream order, of exactly the yielded blocks whose
concrete field maps to it — each block copied at the running write index,
which advances by the block length. -/
theorem c4_union_fanout_fill (unions : Unions)
    (vf : List (String × Nat)) (af : List (String × List Nat))
    (countFn : PSize → List Chunk → Ptf → Selector → PSize)
    (readPDF : DataFile → Ptf → Selector → List (FieldKey × PArr))
    (chunks : List Chunk) (selector : Selector) (fields : List FieldKey)
    (f : FieldKey) (rv : PRv)
    (hf : f ∈ fields) (hnd : fields.Nodup) (hu : ∀ u ∈ unions, u.2.Nodup)
    (hok : read_particle_selection unions vf af countFn readPDF chunks selector fields
      = Except.ok rv) :
    (∀ pts, alookup unions f.1 = some pts → ∀ pt ∈ pts,
        f.2 ∈ (alookup (buildPtf unions fields) pt).getD [])
    ∧ ∃ a, alookup rv f = some a
        ∧ a.rows = contribRows (buildFieldMaps unions fields) f
            (read_particle_fields_stream readPDF (buildPtf unions fields) selector chunks) := by
  constructor
  · intro pts hun pt hpt
    exact buildPtf_adds unions fields f pts hun pt hpt [] hf
  · obtain ⟨st, hfl, hrv⟩ := except_map_ok _ _ _ hok
    have ha0 := initRv_lookup unions vf af countFn chunks selector fields f hf
    have hi0 := initInd_lookup fields f hf
    obtain ⟨a2, t1, t2, t3, t4, t5, t6⟩ :=
      fillLoop_tracks (buildFieldMaps unions fields)
        (read_particle_fields_stream readPDF (buildPtf unions fields) selector chunks) f
        _ st _ 0 hfl ha0 hi0 (Nat.zero_le _)
    have hkeys := fillLoop_keys _ _ _ _ hfl
    have hnd2 : (st.2.map Prod.fst).Nodup := by
      rw [hkeys.2]
      exact initInd_keys_nodup fields
    have htrim := trimAll_lookup st.2 f st.1 _ a2 hnd2 t2 t1
    rw [hrv]
    refine ⟨_, htrim, ?_⟩
    show a2.rows.take _ = _
    rw [t6]
    simp only [List.take_zero, List.nil_append]
    exact contrib_eq _ f _ (fun k => buildFieldMaps_count_le_one unions fields hnd hu k f)

/-- C6: after the trim phase the returned array of each requested field
has exactly the length of what was filled into it (the mapped blocks'
total row count), never exceeding the allocated upper bound `fsize`; and
when the selection yields no blocks at all, the pipeline returns without
error, with an empty (0-row) array of the field's allocated row shape. -/
theorem c6_trim_exact (unions : Unions)
    (vf : List (String × Nat)) (af : List (String × List Nat))
    (countFn : PSize → List Chunk → Ptf → Selector → PSize)
    (readPDF : DataFile → Ptf → Selector → List (FieldKey × PArr))
    (chunks : List Chunk) (selector : Selector) (fields : List FieldKey) (f : FieldKey)
    (hf : f ∈ fields) (hnd : fields.Nodup) (hu : ∀ u ∈ unions, u.2.Nodup) :
    (∀ rv, read_particle_selection unions vf af countFn readPDF chunks selector fields
        = Except.ok rv →
      ∃ a, alookup rv f = some a
        ∧ a.rows.length = (contribRows (buildFieldMaps unions fields) f
            (read_particle_fields_stream readPDF (buildPtf unions fields) selector
              chunks)).length
        ∧ a.rows.length ≤ (alookup (fsizeOf unions countFn chunks selector fields) f).getD 0)
    ∧ ((∀ df ∈ read_particle_files_order chunks,
          readPDF df (buildPtf unions fields) selector = []) →
      ∃ rv a, read_particle_selection unions vf af countFn readPDF chunks selector fields
          = Except.ok rv
        ∧ alookup rv f = some a ∧ a.rows = []
        ∧ a.rowShape = allocRowShape vf af f) := by
  constructor
  · intro rv hok
    obtain ⟨st, hfl, hrv⟩ := except_map_ok _ _ _ hok
    have ha0 := initRv_lookup unions vf af countFn chunks selector fields f hf
    have hi0 := initInd_lookup fields f hf
    obtain ⟨a2, t1, t2, t3, t4, t5, t6⟩ :=
      fillLoop_tracks (buildFieldMaps unions fields)
        (read_particle_fields_stream readPDF (buildPtf unions fields) selector chunks) f
        _ st _ 0 hfl ha0 hi0 (Nat.zero_le _)
    have hkeys := fillLoop_keys _ _ _ _ hfl
    have hnd2 : (st.2.map Prod.fst).Nodup := by
      rw [hkeys.2]
      exact initInd_keys_nodup fields
    have htrim := trimAll_lookup st.2 f st.1 _ a2 hnd2 t2 t1
    have hle2 : 0 + (contribRowsC (buildFieldMaps unions fields) f
        (read_particle_fields_stream readPDF (buildPtf unions fields) selector
          chunks)).length ≤ a2.rows.length := by
      rw [t4]
      exact t5
    rw [hrv]
    refine ⟨_, htrim, ?_, ?_⟩
    · show (a2.rows.take _).length = _
      rw [List.length_take_of_le hle2, Nat.zero_add,
        contrib_eq _ f _ (fun k => buildFieldMaps_count_le_one unions fields hnd hu k f)]
    · show (a2.rows.take _).length ≤ _
      rw [List.length_take_of_le hle2]
      refine le_trans t5 ?_
      simp [pempty]
  · intro hempty
    have hstream : read_particle_fields_stream readPDF (buildPtf unions fields) selector
        chunks = [] :=
      flatMap_nil_of _ _ hempty
    have hrun : read_particle_selection unions vf af countFn readPDF chunks selector fields
        = Except.ok (trimAll (initInd fields)
            (initRv unions vf af countFn chunks selector fields)) := by
      unfold read_particle_selection
      rw [hstream]
      rfl
    have htrim := trimAll_lookup (initInd fields) f
      (initRv unions vf af countFn chunks selector fields) 0
      (pempty ((alookup (fsizeOf unions countFn chunks selector fields) f).getD 0)
        (allocRowShape vf af f))
      (initInd_keys_nodup fields) (initInd_lookup fields f hf)
      (initRv_lookup unions vf af countFn chunks selector fields f hf)
    exact ⟨_, _, hrun, htrim, rfl, rfl⟩

/-- C4 witness: a union field over types a, b filled from two sorted
files, one block each; the trimmed result is the concatenation. -/
theorem c4_union_fanout_fill_witness :
    ((("all", "m") ∈ fieldsW) ∧ fieldsW.Nodup ∧ (∀ u ∈ unionsW, u.2.Nodup)
      ∧ read_particle_selection unionsW [] [] countFnW readPDFW chunksW selW fieldsW
          = Except.ok rvW)
    ∧ ((∀ pts, alookup unionsW ("all", "m").1 = some pts → ∀ pt ∈ pts,
          ("all", "m").2 ∈ (alookup (buildPtf unionsW fieldsW) pt).getD [])
      ∧ ∃ a, alookup rvW ("all", "m") = some a
          ∧ a.rows = contribRows (buildFieldMaps unionsW fieldsW) ("all", "m")
              (read_particle_fields_stream readPDFW (buildPtf unionsW fieldsW) selW
                chunksW)) :=
  ⟨⟨by decide, by decide, by decide, by decide⟩,
   c4_union_fanout_fill unionsW [] [] countFnW readPDFW chunksW selW fieldsW
     ("all", "m") rvW (by decide) (by decide) (by decide) (by decide)⟩

/-- C6 witness: the same union-field instance with an empty per-file
read: lengths are exact and the empty selection yields an empty array
without error. -/
theorem c6_trim_exact_witness :
    ((("all", "m") ∈ fieldsW) ∧ fieldsW.Nodup ∧ (∀ u ∈ unionsW, u.2.Nodup))
    ∧ ((∀ rv, read_particle_selection unionsW [] [] countFnW readPDFEmptyW chunksW selW
          fieldsW = Except.ok rv →
        ∃ a, alookup rv ("all", "m") = some a
          ∧ a.rows.length = (contribRows (buildFieldMaps unionsW fieldsW) ("all", "m")
              (read_particle_fields_stream readPDFEmptyW (buildPtf unionsW fieldsW) selW
                chunksW)).length
          ∧ a.rows.length ≤ (alookup (fsizeOf unionsW countFnW chunksW selW fieldsW)
              ("all", "m")).getD 0)
      ∧ ((∀ df ∈ read_particle_files_order chunksW,
            readPDFEmptyW df (buildPtf unionsW fieldsW) selW = []) →
        ∃ rv a, read_particle_selection unionsW [] [] countFnW readPDFEmptyW chunksW selW
            fieldsW = Except.ok rv
          ∧ alookup rv ("all", "m") = some a ∧ a.rows = []
          ∧ a.rowShape = allocRowShape [] [] ("all", "m"))) :=
  ⟨⟨by decide, by decide, by decide⟩,
   c6_trim_exact unionsW [] [] countFnW readPDFEmptyW chunksW selW fieldsW
     ("all", "m") (by decide) (by decide) (by decide)⟩

end YtIo
